import Mathlib

/-!
Verification of the anonymization/deanonymization engine of
`rvtools_processor.py` (class `AnonymizationManager` together with
`anonymize_rvtools` and `deanonymize_rvtools`).

The engine is shallowly embedded: Python dictionaries become association
lists whose newest binding is consed at the head (lookup takes the first
match, which coincides with the dictionary's current value because the
program only overwrites `reverse_mappings` and `vm_id_mappings`, never
`name_mappings` or `ip_mappings`), counters become `Nat`, 32-bit machine
arithmetic is `Nat` arithmetic with explicit masks/mods, and the MD5
digest used by the program is implemented in full (RFC 1321).  Cell
values, which the program uniformly converts with `str(...)`, are
modelled as `String`; the empty string models a falsy/empty cell.
The program hashes only ASCII strings (decimal integers, IP addresses,
MAC addresses and UUIDs), so bytes of a string are taken to be its
character codes.
-/

namespace RVTools

/-! ### Small helpers: Python string operations, decimal formatting -/

/-- The characters of a string. -/
def chars (s : String) : List Char := s.data

/-- Build a string from characters. -/
def strOf (cs : List Char) : String := String.mk cs

/-- Python `str.strip()` (the hashed/parsed inputs are ASCII, so trimming
ASCII whitespace is exact). -/
def pyStrip (cs : List Char) : List Char :=
  ((cs.dropWhile Char.isWhitespace).reverse.dropWhile Char.isWhitespace).reverse

/-- `str.strip()` on a string. -/
def pyStripS (s : String) : String := strOf (pyStrip (chars s))

/-- ASCII decimal digit test (Python's parsers restrict to ASCII digits). -/
def isDig (c : Char) : Bool := decide ('0' ≤ c) && decide (c ≤ '9')

/-- Python `str.isdigit()` for ASCII content: nonempty and all digits. -/
def pyIsDigit (s : String) : Bool := !(chars s).isEmpty && (chars s).all isDig

/-- Split a character list at every occurrence of the separator, Python
`str.split(sep)` for a one-character separator. -/
def splitChars (sep : Char) : List Char → List (List Char)
  | [] => [[]]
  | c :: cs =>
    let rest := splitChars sep cs
    if c = sep then [] :: rest
    else match rest with
      | [] => [[c]]
      | r :: rs => (c :: r) :: rs

/-- Python `sep.join(parts)` for a one-character separator. -/
def joinChars (sep : Char) : List (List Char) → List Char
  | [] => []
  | [p] => p
  | p :: ps => p ++ sep :: joinChars sep ps

/-- Membership of a character in a string, Python `c in s`. -/
def hasChar (s : String) (c : Char) : Bool := (chars s).contains c

/-- Fuelled digit extraction (structural recursion so that the kernel can
evaluate it; the fuel is always sufficient). -/
def natToDecAux : Nat → Nat → List Char
  | 0, _ => []
  | fuel + 1, n =>
    if n < 10 then [Char.ofNat (48 + n)]
    else natToDecAux fuel (n / 10) ++ [Char.ofNat (48 + n % 10)]

/-- Leading-zero-free decimal digits of a natural number, Python `str(n)`. -/
def natToDec (n : Nat) : List Char := natToDecAux (n + 1) n

/-- Python `str(n)` as a string. -/
def natToDecS (n : Nat) : String := strOf (natToDec n)

/-- Python `f"{n:04d}"`: decimal digits of `n` left-padded with zeros to
width 4. -/
def pad4 (n : Nat) : List Char :=
  List.replicate (4 - (natToDec n).length) '0' ++ natToDec n

/-- Python `f"{n:04d}"` as a string. -/
def pad4S (n : Nat) : String := strOf (pad4 n)

/-- Numeric value of a decimal digit list (most significant first). -/
def decVal (cs : List Char) : Nat :=
  cs.foldl (fun acc c => 10 * acc + (c.toNat - 48)) 0

/-- Value of a lowercase hexadecimal digit. -/
def hexDigVal (c : Char) : Nat :=
  if c.toNat ≥ 97 then c.toNat - 87 else c.toNat - 48

/-- Numeric value of a hexadecimal digit list, Python `int(s, 16)` on the
lowercase digests produced here. -/
def hexVal (cs : List Char) : Nat :=
  cs.foldl (fun acc c => 16 * acc + hexDigVal c) 0

/-- Lowercase hexadecimal digit of a value below 16. -/
def hexDig (n : Nat) : Char :=
  if n < 10 then Char.ofNat (48 + n) else Char.ofNat (87 + n)

/-! ### MD5 (RFC 1321), as `hashlib.md5(...).hexdigest()` -/

/-- Truncation to a 32-bit word. -/
def w32 (n : Nat) : Nat := n % 4294967296

/-- 32-bit left rotation (arguments already below `2^32`). -/
def rotl (x n : Nat) : Nat := w32 (x <<< n) ||| (x >>> (32 - n))

/-- The 64 MD5 sine-derived constants. -/
def md5K : List Nat :=
  [0xd76aa478, 0xe8c7b756, 0x242070db, 0xc1bdceee,
   0xf57c0faf, 0x4787c62a, 0xa8304613, 0xfd469501,
   0x698098d8, 0x8b44f7af, 0xffff5bb1, 0x895cd7be,
   0x6b901122, 0xfd987193, 0xa679438e, 0x49b40821,
   0xf61e2562, 0xc040b340, 0x265e5a51, 0xe9b6c7aa,
   0xd62f105d, 0x02441453, 0xd8a1e681, 0xe7d3fbc8,
   0x21e1cde6, 0xc33707d6, 0xf4d50d87, 0x455a14ed,
   0xa9e3e905, 0xfcefa3f8, 0x676f02d9, 0x8d2a4c8a,
   0xfffa3942, 0x8771f681, 0x6d9d6122, 0xfde5380c,
   0xa4beea44, 0x4bdecfa9, 0xf6bb4b60, 0xbebfbc70,
   0x289b7ec6, 0xeaa127fa, 0xd4ef3085, 0x04881d05,
   0xd9d4d039, 0xe6db99e5, 0x1fa27cf8, 0xc4ac5665,
   0xf4292244, 0x432aff97, 0xab9423a7, 0xfc93a039,
   0x655b59c3, 0x8f0ccc92, 0xffeff47d, 0x85845dd1,
   0x6fa87e4f, 0xfe2ce6e0, 0xa3014314, 0x4e0811a1,
   0xf7537e82, 0xbd3af235, 0x2ad7d2bb, 0xeb86d391]

/-- The 64 MD5 per-round left-rotation amounts. -/
def md5S : List Nat :=
  [7, 12, 17, 22, 7, 12, 17, 22, 7, 12, 17, 22, 7, 12, 17, 22,
   5, 9, 14, 20, 5, 9, 14, 20, 5, 9, 14, 20, 5, 9, 14, 20,
   4, 11, 16, 23, 4, 11, 16, 23, 4, 11, 16, 23, 4, 11, 16, 23,
   6, 10, 15, 21, 6, 10, 15, 21, 6, 10, 15, 21, 6, 10, 15, 21]

/-- The MD5 round functions F, G, H, I selected by round index. -/
def md5F (i b c d : Nat) : Nat :=
  if i < 16 then (b &&& c) ||| ((0xFFFFFFFF ^^^ b) &&& d)
  else if i < 32 then (d &&& b) ||| ((0xFFFFFFFF ^^^ d) &&& c)
  else if i < 48 then b ^^^ c ^^^ d
  else c ^^^ (b ||| (0xFFFFFFFF ^^^ d))

/-- The MD5 message-word index for each round. -/
def md5g (i : Nat) : Nat :=
  if i < 16 then i
  else if i < 32 then (5 * i + 1) % 16
  else if i < 48 then (3 * i + 5) % 16
  else (7 * i) % 16

/-- Little-endian bytes of a number, fixed width. -/
def leBytes : Nat → Nat → List Nat
  | 0, _ => []
  | k + 1, n => n % 256 :: leBytes k (n / 256)

/-- The sixteen little-endian 32-bit words of a 64-byte block. -/
def md5Words : List Nat → List Nat
  | b0 :: b1 :: b2 :: b3 :: rest =>
    (b0 + b1 * 256 + b2 * 65536 + b3 * 16777216) :: md5Words rest
  | _ => []

/-- One MD5 round step on the running state. -/
def md5Step (m : List Nat) (st : Nat × Nat × Nat × Nat) (i : Nat) :
    Nat × Nat × Nat × Nat :=
  match st with
  | (a, b, c, d) =>
    let f := w32 (md5F i b c d + a + md5K.getD i 0 + m.getD (md5g i) 0)
    (d, w32 (b + rotl f (md5S.getD i 0)), b, c)

/-- Compression of one 64-byte block into the chaining state. -/
def md5Compress (st : Nat × Nat × Nat × Nat) (block : List Nat) :
    Nat × Nat × Nat × Nat :=
  match st with
  | (a0, b0, c0, d0) =>
    let m := md5Words block
    match (List.range 64).foldl (md5Step m) (a0, b0, c0, d0) with
    | (a, b, c, d) => (w32 (a0 + a), w32 (b0 + b), w32 (c0 + c), w32 (d0 + d))

/-- Fold the compression function over all 64-byte blocks (fuelled
structural recursion; the fuel is always sufficient). -/
def md5BlocksAux : Nat → Nat × Nat × Nat × Nat → List Nat →
    Nat × Nat × Nat × Nat
  | 0, st, _ => st
  | fuel + 1, st, bs =>
    if bs.isEmpty then st
    else md5BlocksAux fuel (md5Compress st (bs.take 64)) (bs.drop 64)

/-- Fold the compression function over all 64-byte blocks. -/
def md5Blocks (st : Nat × Nat × Nat × Nat) (bs : List Nat) :
    Nat × Nat × Nat × Nat :=
  md5BlocksAux bs.length st bs

/-- MD5 padding: `0x80`, zeros to 56 mod 64, then the 64-bit little-endian
bit length. -/
def md5Pad (msg : List Nat) : List Nat :=
  msg ++ 0x80 :: List.replicate ((119 - msg.length % 64) % 64) 0
      ++ leBytes 8 ((msg.length * 8) % 18446744073709551616)

/-- The sixteen digest bytes of a byte message. -/
def md5Digest (msg : List Nat) : List Nat :=
  match md5Blocks (0x67452301, 0xefcdab89, 0x98badcfe, 0x10325476)
      (md5Pad msg) with
  | (a, b, c, d) => leBytes 4 a ++ leBytes 4 b ++ leBytes 4 c ++ leBytes 4 d

/-- Lowercase hex characters of a byte list. -/
def bytesToHex (bs : List Nat) : List Char :=
  bs.flatMap fun b => [hexDig (b / 16), hexDig (b % 16)]

/-- Bytes of an ASCII string (the program only hashes ASCII data, where
UTF-8 bytes coincide with character codes). -/
def strBytes (s : String) : List Nat := (chars s).map Char.toNat

/-- `hashlib.md5(s.encode()).hexdigest()` as a character list. -/
def md5hex (s : String) : List Char := bytesToHex (md5Digest (strBytes s))

/-- `hashlib.md5(s.encode()).hexdigest()` as a string. -/
def md5hexS (s : String) : String := strOf (md5hex s)

/-! ### IP address parsing (CPython `ipaddress` module semantics) -/

/-- One dotted-quad octet, as accepted by `ipaddress.IPv4Address`:
1–3 ASCII digits, no leading zero, value at most 255. -/
def parseOctet (cs : List Char) : Option Nat :=
  if cs.isEmpty then none
  else if !cs.all isDig then none
  else if cs.length > 3 then none
  else if cs.length > 1 && decide (cs.headD ' ' = '0') then none
  else if decVal cs ≤ 255 then some (decVal cs) else none

/-- `ipaddress.IPv4Address(s)`, returning the four octets. -/
def parseIPv4 (s : String) : Option (Nat × Nat × Nat × Nat) :=
  match splitChars '.' (chars s) with
  | [p1, p2, p3, p4] =>
    match parseOctet p1, parseOctet p2, parseOctet p3, parseOctet p4 with
    | some a, some b, some c, some d => some (a, b, c, d)
    | _, _, _, _ => none
  | _ => none

/-- The 32-bit integer of a parsed IPv4 address, `int(ip_obj)`. -/
def ipv4Int (a b c d : Nat) : Nat := a * 16777216 + b * 65536 + c * 256 + d

/-- `str(ipaddress.IPv4Address(n))`: dotted-quad rendering of a 32-bit
integer. -/
def ipv4ToString (n : Nat) : String :=
  strOf (natToDec (n / 16777216 % 256) ++ '.' :: natToDec (n / 65536 % 256)
    ++ '.' :: natToDec (n / 256 % 256) ++ '.' :: natToDec (n % 256))

/-- A hextet of an IPv6 address: 1–4 hexadecimal digits. -/
def hextetOK (cs : List Char) : Bool :=
  !cs.isEmpty && decide (cs.length ≤ 4) &&
    cs.all fun c => isDig c || (decide ('a' ≤ c) && decide (c ≤ 'f'))
      || (decide ('A' ≤ c) && decide (c ≤ 'F'))

/-- `ipaddress.IPv6Address` validity of the part before any scope id,
following CPython's `_ip_int_from_string`: split on `:`, allow one `::`,
an optional embedded dotted-quad in the last group, and 1–4 hex digits
per group. -/
def isValidIPv6Core (cs : List Char) : Bool :=
  let parts0 := splitChars ':' cs
  if parts0.length < 3 then false
  else
    match
      (if (parts0.getLastD []).contains '.' then
        match parseIPv4 (strOf (parts0.getLastD [])) with
        | some _ => some (parts0.dropLast ++ [['0'], ['0']])
        | none => none
      else some parts0) with
    | none => false
    | some parts =>
      if parts.length > 9 then false
      else
        let inner := (parts.drop 1).dropLast
        if 1 < inner.countP List.isEmpty then false
        else if inner.countP List.isEmpty = 1 then
          let si := 1 + ((inner.findIdx? List.isEmpty).getD 0)
          let hi := if (parts.headD ['0']).isEmpty then si - 1 else si
          let lo := if (parts.getLastD ['0']).isEmpty
            then parts.length - si - 2 else parts.length - si - 1
          if (parts.headD ['0']).isEmpty && decide (hi ≠ 0) then false
          else if (parts.getLastD ['0']).isEmpty && decide (lo ≠ 0) then false
          else if decide (8 ≤ hi + lo) then false
          else (parts.take hi).all hextetOK &&
            (parts.drop (parts.length - lo)).all hextetOK
        else
          if decide (parts.length ≠ 8) then false
          else if (parts.headD []).isEmpty || (parts.getLastD []).isEmpty
            then false
          else parts.all hextetOK

/-- `ipaddress.IPv6Address(s)` validity: an optional nonempty `%scope`
suffix after the first `%`, and a valid address before it. -/
def isValidIPv6 (s : String) : Bool :=
  match splitChars '%' (chars s) with
  | [addr] => isValidIPv6Core addr
  | [addr, scope] => isValidIPv6Core addr && !scope.isEmpty
  | _ => false

/-- The regular expression `^\d+\.\d+\.\d+\.\d+$` of the fallback branch:
four nonempty dot-separated digit groups. -/
def shapedIPv4 (s : String) : Bool :=
  match splitChars '.' (chars s) with
  | [p1, p2, p3, p4] =>
    (!p1.isEmpty && p1.all isDig) && (!p2.isEmpty && p2.all isDig) &&
    (!p3.isEmpty && p3.all isDig) && (!p4.isEmpty && p4.all isDig)
  | _ => false

/-! ### Association lists as Python dictionaries -/

/-- Dictionary lookup: the most recent binding is consed at the head, so
the first match is the dictionary's current value. -/
def lookup (m : List (String × String)) (k : String) : Option String :=
  (m.find? fun p => p.1 = k).map Prod.snd

/-- Dictionary store `m[k] = v` (the program never overwrites
`name_mappings`/`ip_mappings` keys, and for the overwritable
`reverse_mappings`/`vm_id_mappings` the head binding is the current one). -/
def store (m : List (String × String)) (k v : String) :
    List (String × String) := (k, v) :: m

/-- Set insertion for the `unique_*` summary sets. -/
def setAdd (s : List String) (x : String) : List String :=
  if x ∈ s then s else x :: s

/-! ### The `AnonymizationManager` class -/

/-- State of `AnonymizationManager`.  Dictionaries are association lists
with the newest binding first; sets are duplicate-free lists. -/
structure AnonymizationManager where
  vm_counter : Nat
  host_counter : Nat
  cluster_counter : Nat
  datacenter_counter : Nat
  ip_mappings : List (String × String)
  name_mappings : List (String × String)
  reverse_mappings : List (String × String)
  vm_id_mappings : List (String × String)
  filename_suffix : String
  unique_vms : List String
  unique_hosts : List String
  unique_clusters : List String
  unique_datacenters : List String
deriving DecidableEq

namespace AnonymizationManager

/-- `AnonymizationManager.__init__`. -/
def init (filename_suffix : String) : AnonymizationManager where
  vm_counter := 1
  host_counter := 1
  cluster_counter := 1
  datacenter_counter := 1
  ip_mappings := []
  name_mappings := []
  reverse_mappings := []
  vm_id_mappings := []
  filename_suffix := filename_suffix
  unique_vms := []
  unique_hosts := []
  unique_clusters := []
  unique_datacenters := []

/-- `anonymize_vm_name_with_id`: use the row's VM ID as the pseudonym when
present, with a filename suffix for duplicated IDs, else fall back to the
sequential `VM-%04d` pseudonym. -/
def anonymize_vm_name_with_id (st : AnonymizationManager) (vm_name : String)
    (vm_id : Option String) (count_vm : Bool) :
    String × AnonymizationManager :=
  if vm_name = "" then (vm_name, st)
  else match lookup st.name_mappings vm_name with
  | some p => (p, st)
  | none =>
    let st1 := if count_vm
      then { st with unique_vms := setAdd st.unique_vms vm_name } else st
    match vm_id with
    | some vid =>
      if vid = "" then
        let anon := "VM-" ++ pad4S st1.vm_counter ++
          (if st1.filename_suffix ≠ "" then "_" ++ st1.filename_suffix else "")
        (anon, { st1 with
          name_mappings := store st1.name_mappings vm_name anon
          reverse_mappings := store st1.reverse_mappings anon vm_name
          vm_counter := st1.vm_counter + 1 })
      else
        let anon := if st1.filename_suffix ≠ "" ∧
            (lookup st1.vm_id_mappings vid).isSome
          then vid ++ "_" ++ st1.filename_suffix else vid
        (anon, { st1 with
          name_mappings := store st1.name_mappings vm_name anon
          reverse_mappings := store st1.reverse_mappings anon vm_name
          vm_id_mappings := store st1.vm_id_mappings vid anon })
    | none =>
      let anon := "VM-" ++ pad4S st1.vm_counter ++
        (if st1.filename_suffix ≠ "" then "_" ++ st1.filename_suffix else "")
      (anon, { st1 with
        name_mappings := store st1.name_mappings vm_name anon
        reverse_mappings := store st1.reverse_mappings anon vm_name
        vm_counter := st1.vm_counter + 1 })

/-- `anonymize_host_name`. -/
def anonymize_host_name (st : AnonymizationManager) (host_name : String)
    (count_host : Bool) : String × AnonymizationManager :=
  if host_name = "" then (host_name, st)
  else match lookup st.name_mappings host_name with
  | some p => (p, st)
  | none =>
    let st1 := if count_host
      then { st with unique_hosts := setAdd st.unique_hosts host_name }
      else st
    let anon := "HOST-" ++ pad4S st1.host_counter
    (anon, { st1 with
      name_mappings := store st1.name_mappings host_name anon
      reverse_mappings := store st1.reverse_mappings anon host_name
      host_counter := st1.host_counter + 1 })

/-- `anonymize_cluster_name`. -/
def anonymize_cluster_name (st : AnonymizationManager)
    (cluster_name : String) : String × AnonymizationManager :=
  if cluster_name = "" then (cluster_name, st)
  else match lookup st.name_mappings cluster_name with
  | some p => (p, st)
  | none =>
    let st1 := { st with
      unique_clusters := setAdd st.unique_clusters cluster_name }
    let anon := "CLUSTER-" ++ pad4S st1.cluster_counter
    (anon, { st1 with
      name_mappings := store st1.name_mappings cluster_name anon
      reverse_mappings := store st1.reverse_mappings anon cluster_name
      cluster_counter := st1.cluster_counter + 1 })

/-- `anonymize_datacenter_name`. -/
def anonymize_datacenter_name (st : AnonymizationManager)
    (dc_name : String) : String × AnonymizationManager :=
  if dc_name = "" then (dc_name, st)
  else match lookup st.name_mappings dc_name with
  | some p => (p, st)
  | none =>
    let st1 := { st with
      unique_datacenters := setAdd st.unique_datacenters dc_name }
    let anon := "DC-" ++ pad4S st1.datacenter_counter
    (anon, { st1 with
      name_mappings := store st1.name_mappings dc_name anon
      reverse_mappings := store st1.reverse_mappings anon dc_name
      datacenter_counter := st1.datacenter_counter + 1 })

/-- `anonymize_single_ip`: memoised IPv4 network-preserving substitution,
IPv6 hashing into `2001:db8::/32`, a deterministic `10.0.0.x` pool for
IPv4-shaped but invalid values, and pass-through otherwise. -/
def anonymize_single_ip (st : AnonymizationManager) (ip_str : String) :
    String × AnonymizationManager :=
  if ip_str = "" then ((lookup st.ip_mappings ip_str).getD ip_str, st)
  else match lookup st.ip_mappings ip_str with
  | some r => (r, st)
  | none =>
    match parseIPv4 ip_str with
    | some (a, b, c, d) =>
      let ip_int := ipv4Int a b c d
      let network_part := ip_int &&& 0xFFFFFF00
      let host_part := ip_int &&& 0xFF
      let network_hash := (md5hex (natToDecS network_part)).take 4
      let network_id := hexVal network_hash % 254 + 1
      let anon_network := 0x0A000000 ||| (network_id <<< 16) |||
        ((network_part >>> 8) &&& 0xFF00)
      let anon_ip := anon_network ||| host_part
      let anon_ip_str := ipv4ToString anon_ip
      (anon_ip_str, { st with
        ip_mappings := store st.ip_mappings ip_str anon_ip_str
        reverse_mappings := store st.reverse_mappings anon_ip_str ip_str })
    | none =>
      if isValidIPv6 ip_str then
        let ip_hash := md5hex ip_str
        let anon_ipv6 := "2001:db8:" ++ strOf (ip_hash.take 4) ++ ":" ++
          strOf ((ip_hash.drop 4).take 4) ++ ":" ++
          strOf ((ip_hash.drop 8).take 4) ++ ":" ++
          strOf ((ip_hash.drop 12).take 4) ++ ":" ++
          strOf ((ip_hash.drop 16).take 4) ++ ":" ++
          strOf ((ip_hash.drop 20).take 4)
        (anon_ipv6, { st with
          ip_mappings := store st.ip_mappings ip_str anon_ipv6
          reverse_mappings := store st.reverse_mappings anon_ipv6 ip_str })
      else if shapedIPv4 ip_str then
        let anon_ip := "10.0.0." ++ natToDecS (st.ip_mappings.length % 254 + 1)
        (anon_ip, { st with
          ip_mappings := store st.ip_mappings ip_str anon_ip
          reverse_mappings := store st.reverse_mappings anon_ip ip_str })
      else (ip_str, st)

/-- Transform the sub-values of a multi-valued address field in order,
threading the manager state (the loop body of `anonymize_ip_address`). -/
def anonymizeIPList (st : AnonymizationManager) :
    List String → List String × AnonymizationManager
  | [] => ([], st)
  | ip :: rest =>
    let r := anonymize_single_ip st ip
    let rs := anonymizeIPList r.2 rest
    (if r.1 ≠ "" then r.1 :: rs.1 else rs.1, rs.2)

/-- `anonymize_ip_address`: strip, split multi-valued fields on `,` or
`;`, transform each sub-value, and rejoin. -/
def anonymize_ip_address (st : AnonymizationManager) (v : String) :
    String × AnonymizationManager :=
  if pyStripS v = "" then (v, st)
  else
    let ip_str := pyStripS v
    if hasChar ip_str ',' ∨ hasChar ip_str ';' then
      let sep := if hasChar ip_str ',' then ',' else ';'
      let ips := (splitChars sep (chars ip_str)).map fun p => strOf (pyStrip p)
      let r := anonymizeIPList st ips
      (if r.1 ≠ [] then strOf (joinChars sep (r.1.map chars))
       else ip_str, r.2)
    else
      let r := anonymize_single_ip st ip_str
      (if r.1 ≠ "" then r.1 else ip_str, r.2)

/-- `anonymize_generic_field`: pseudonym `<field_type>-%04d` numbered by
the current size of the shared name dictionary. -/
def anonymize_generic_field (st : AnonymizationManager) (value : String)
    (field_type : String) : String × AnonymizationManager :=
  if value = "" then (value, st)
  else match lookup st.name_mappings value with
  | some p => (p, st)
  | none =>
    let anon := field_type ++ "-" ++ pad4S st.name_mappings.length
    (anon, { st with
      name_mappings := store st.name_mappings value anon
      reverse_mappings := store st.reverse_mappings anon value })

end AnonymizationManager

/-! ### The table engine: `anonymize_rvtools` and `deanonymize_rvtools`

A sheet is its name together with its rows (the first row is the header
row); a workbook is the ordered list of its sheets.  Cell values are the
`str(...)` of the cell, the empty string standing for an empty cell. -/

/-- A worksheet: name and rows, first row the headers. -/
structure Sheet where
  name : String
  rows : List (List String)
deriving DecidableEq

open AnonymizationManager

/-- Does the first list start with the second? -/
def startsWithChars : List Char → List Char → Bool
  | _, [] => true
  | [], _ :: _ => false
  | c :: cs, d :: ds => c = d && startsWithChars cs ds

/-- Substring occurrence scan. -/
def hasSubChars : List Char → List Char → Bool
  | [], needle => needle.isEmpty
  | c :: cs, needle => startsWithChars (c :: cs) needle || hasSubChars cs needle

/-- `'hostname' in str(v).lower()`. -/
def hasHostnameWord (v : String) : Bool :=
  hasSubChars ((chars v).map Char.toLower) (chars "hostname")

/-- The inline MAC-address branch of `anonymize_rvtools`. -/
def anonymizeMac (st : AnonymizationManager) (v : String) :
    String × AnonymizationManager :=
  let mac_hash := (md5hex v).take 12
  let formatted_mac := strOf (joinChars ':'
    [mac_hash.take 2, (mac_hash.drop 2).take 2, (mac_hash.drop 4).take 2,
     (mac_hash.drop 6).take 2, (mac_hash.drop 8).take 2, mac_hash.drop 10])
  (formatted_mac,
    { st with reverse_mappings := store st.reverse_mappings formatted_mac v })

/-- The inline UUID branch of `anonymize_rvtools`. -/
def anonymizeUuid (st : AnonymizationManager) (v : String) :
    String × AnonymizationManager :=
  let uuid_hash := md5hex v
  let out := if hasChar v '-' then
      strOf (uuid_hash.take 8) ++ "-" ++ strOf ((uuid_hash.drop 8).take 4)
        ++ "-" ++ strOf ((uuid_hash.drop 12).take 4) ++ "-"
        ++ strOf ((uuid_hash.drop 16).take 4) ++ "-"
        ++ strOf ((uuid_hash.drop 20).take 12)
    else strOf uuid_hash
  (out, { st with reverse_mappings := store st.reverse_mappings out v })

/-- The cell transformation of `anonymize_rvtools`: the full
header/sheet-name classification chain, in source order. -/
def processCell (st : AnonymizationManager) (sheetName header : String)
    (vmId : Option String) (v : String) : String × AnonymizationManager :=
  if pyStripS v = "" then (v, st)
  else if header ∈ ["Port", "VLAN", "VLAN ID", "CPU", "Memory", "Disk Size",
      "Used Space", "Free Space"] ∧ pyIsDigit v then (v, st)
  else if header ∈ ["VM", "VM Name", "Name"] ∧ sheetName ∈ ["vInfo",
      "vSnapshot", "vCPU", "vMemory", "vDisk", "vPartition", "vNetwork",
      "vFloppy", "vCD"] then
    st.anonymize_vm_name_with_id v vmId (sheetName = "vInfo")
  else if header ∈ ["Host", "ESX Host", "Host Name", "Hosts"] then
    st.anonymize_host_name v (sheetName = "vHost")
  else if header ∈ ["Cluster", "Cluster Name"] then
    st.anonymize_cluster_name v
  else if header ∈ ["Datacenter", "Datacenter Name"] then
    st.anonymize_datacenter_name v
  else if header ∈ ["IP Address", "Primary IP Address", "IPv4 Address",
      "IPv6 Address", "IP Addresses", "Address"] then
    st.anonymize_ip_address v
  else if header ∈ ["DNS Name", "FQDN", "DNS Server", "DNS Servers"] then
    if hasChar v '.' then
      let parts := splitChars '.' (chars v)
      let r := st.anonymize_generic_field (strOf (parts.headD [])) "HOST"
      (r.1 ++ ".anon.local", r.2)
    else st.anonymize_generic_field v "DNS"
  else if header ∈ ["Mac Address", "MAC Address"] then anonymizeMac st v
  else if header ∈ ["Folder", "Path", "Log directory", "Snapshot directory",
      "Suspend directory", "Resource Pool path"] then
    st.anonymize_generic_field v "PATH"
  else if header ∈ ["Disk", "Disk Path", "Filename", "File", "Display Name"]
      ∧ sheetName ∈ ["vDisk", "vPartition", "vMultiPath"] then
    st.anonymize_generic_field v "DISK"
  else if header ∈ ["Internal Sort Column"] then
    st.anonymize_generic_field v "SORT"
  else if header ∈ ["Annotation", "Notes", "Description", "Message"] then
    ("ANONYMIZED_TEXT", st)
  else if header ∈ ["VI SDK Server", "vCenter"] then
    st.anonymize_generic_field v "VCENTER"
  else if header ∈ ["Resource Pool", "Resource pool"] then
    st.anonymize_generic_field v "POOL"
  else if header ∈ ["Datastore", "Datastore Name"] then
    st.anonymize_generic_field v "DS"
  else if header ∈ ["Network", "Network Name", "Switch", "vSwitch"] then
    st.anonymize_generic_field v "NET"
  else if header ∈ ["URL"] then
    st.anonymize_generic_field v "URL"
  else if header = "Name" ∧ sheetName = "vHealth" then
    st.anonymize_generic_field v "HEALTH"
  else if header ∈ ["Guest OS", "Guest OS Full Name"] ∧ hasHostnameWord v
      then st.anonymize_generic_field v "OS"
  else if header ∈ ["Template", "Template Name"] then
    st.anonymize_generic_field v "TEMPLATE"
  else if header ∈ ["VM UUID", "Instance UUID"] ∧ 10 < v.length then
    anonymizeUuid st v
  else if header ∈ ["Config File", "VMX File"] then
    st.anonymize_generic_field v "CONFIG"
  else if header ∈ ["Snapshot Name", "Snapshot Description"] then
    st.anonymize_generic_field v "SNAPSHOT"
  else if header ∈ ["License Key", "Serial Number"] then
    ("ANONYMIZED_LICENSE", st)
  else if header ∈ ["User", "Owner", "Created By"] then
    st.anonymize_generic_field v "USER"
  else (v, st)

/-- Transform the cells of one data row against the header row; cells
beyond the headers are skipped (`col_idx >= len(headers)`). -/
def processCells (st : AnonymizationManager) (sheetName : String)
    (vmId : Option String) :
    List String → List String → List String × AnonymizationManager
  | cells, [] => (cells, st)
  | [], _ => ([], st)
  | c :: cs, h :: hs =>
    let r := processCell st sheetName h vmId c
    let rs := processCells r.2 sheetName vmId cs hs
    (r.1 :: rs.1, rs.2)

/-- The row's VM ID, when the sheet has a `VM ID` column inside the row. -/
def rowVmId (vmIdIdx : Option Nat) (row : List String) : Option String :=
  match vmIdIdx with
  | some i => if i < row.length then row[i]? else none
  | none => none

/-- Transform all data rows of a sheet. -/
def processRows (st : AnonymizationManager) (sheetName : String)
    (headers : List String) (vmIdIdx : Option Nat) :
    List (List String) → List (List String) × AnonymizationManager
  | [] => ([], st)
  | row :: rest =>
    let r := processCells st sheetName (rowVmId vmIdIdx row) row headers
    let rs := processRows r.2 sheetName headers vmIdIdx rest
    (r.1 :: rs.1, rs.2)

/-- Transform one sheet: sheets with at most a header row are skipped,
`VM ID` is resolved from the headers, each data row is processed. -/
def processSheet (st : AnonymizationManager) (s : Sheet) :
    Sheet × AnonymizationManager :=
  match s.rows with
  | [] => (s, st)
  | [headers] => (⟨s.name, [headers]⟩, st)
  | headers :: dataRows =>
    let vmIdIdx := if "VM ID" ∈ headers
      then headers.findIdx? (fun h => h = "VM ID") else none
    let r := processRows st s.name headers vmIdIdx dataRows
    (⟨s.name, headers :: r.1⟩, r.2)

/-- Replace the first sheet with the given name by its processed version
(`wb[sheet_name]`; worksheet names are unique in a workbook). -/
def updateSheetNamed (st : AnonymizationManager) (n : String) :
    List Sheet → List Sheet × AnonymizationManager
  | [] => ([], st)
  | s :: rest =>
    if s.name = n then
      let r := processSheet st s
      (r.1 :: rest, r.2)
    else
      let rs := updateSheetNamed st n rest
      (s :: rs.1, rs.2)

/-- The sheet processing order of `anonymize_rvtools`: `vHost`,
`vCluster`, `vInfo` first when present, then the remaining sheets in
workbook order. -/
def sheetOrder (wb : List Sheet) : List String :=
  (["vHost", "vCluster", "vInfo"].filter
      fun n => wb.any fun s => s.name = n) ++
    ((wb.map Sheet.name).filter
      fun n => !(["vHost", "vCluster", "vInfo"].contains n))

/-- Process the named sheets in order, threading the manager. -/
def runSheets (p : List Sheet × AnonymizationManager) :
    List String → List Sheet × AnonymizationManager
  | [] => p
  | n :: ns => runSheets (updateSheetNamed p.2 n p.1) ns

/-- `anonymize_rvtools` on the abstract workbook: fresh manager, sheets
processed in priority order, transformed workbook plus final manager. -/
def anonymizeWorkbook (wb : List Sheet) (filename_suffix : String) :
    List Sheet × AnonymizationManager :=
  runSheets (wb, init filename_suffix) (sheetOrder wb)

/-- One cell of `deanonymize_rvtools`: nonempty cells that are keys of the
reverse mapping are replaced. -/
def deanonCell (rev : List (String × String)) (c : String) : String :=
  if c ≠ "" ∧ (lookup rev c).isSome then (lookup rev c).getD c else c

/-- `deanonymize_rvtools` on one sheet: sheets with at most a header row
are skipped, data rows get the direct substitution pass. -/
def deanonSheet (rev : List (String × String)) (s : Sheet) : Sheet :=
  match s.rows with
  | [] => s
  | [headers] => ⟨s.name, [headers]⟩
  | headers :: dataRows =>
    ⟨s.name, headers :: dataRows.map fun row => row.map (deanonCell rev)⟩

/-- `deanonymize_rvtools` on the abstract workbook. -/
def deanonymizeWorkbook (rev : List (String × String)) (wb : List Sheet) :
    List Sheet := wb.map (deanonSheet rev)

/-- A cell of the workbook by sheet, row and column index. -/
def getCell (wb : List Sheet) (si ri ci : Nat) : Option String :=
  (wb[si]?.map Sheet.rows).bind fun rows =>
    rows[ri]?.bind fun row => row[ci]?

/-! ### Derived notions used by the statements -/

/-- The `network_hash` local of `anonymize_single_ip`: the first four hex
characters of the MD5 digest of the decimal network value. -/
def networkHash4 (network_part : Nat) : List Char :=
  (md5hex (natToDecS network_part)).take 4

/-- The `network_id` local of `anonymize_single_ip` for the network of an
address `a.b.c.d`: the hash value reduced modulo 254, offset by 1. -/
def netId (a b c : Nat) : Nat :=
  hexVal (networkHash4 (a * 16777216 + b * 65536 + c * 256)) % 254 + 1

/-- One call to an anonymization routine of the manager, labelled by its
category. -/
inductive AnonCall where
  | vmName (vmId : Option String) (count : Bool)
  | hostName (count : Bool)
  | clusterName
  | datacenterName
  | genericField (field_type : String)
  | ipAddr
  | macAddr
  | uuid
deriving DecidableEq

/-- Dispatch one labelled call on a value. -/
def applyCall (call : AnonCall) (st : AnonymizationManager) (v : String) :
    String × AnonymizationManager :=
  match call with
  | .vmName vmId count => st.anonymize_vm_name_with_id v vmId count
  | .hostName count => st.anonymize_host_name v count
  | .clusterName => st.anonymize_cluster_name v
  | .datacenterName => st.anonymize_datacenter_name v
  | .genericField ft => st.anonymize_generic_field v ft
  | .ipAddr => st.anonymize_ip_address v
  | .macAddr => anonymizeMac st v
  | .uuid => anonymizeUuid st v

/-- Run a sequence of labelled calls from a state. -/
def runCalls (st : AnonymizationManager) :
    List (AnonCall × String) → AnonymizationManager
  | [] => st
  | cl :: rest => runCalls (applyCall cl.1 st cl.2).2 rest

/-- The generic field types used by `anonymize_rvtools` other than the
`HOST` type of the DNS branch (whose pseudonyms share the `HOST-` prefix
of the host category). -/
def safeFts : List String :=
  ["ANON", "DNS", "PATH", "DISK", "SORT", "VCENTER", "POOL", "DS", "NET",
   "URL", "HEALTH", "OS", "TEMPLATE", "CONFIG", "SNAPSHOT", "USER"]

/-- Calls whose pseudonym prefixes cannot collide: VM names without a
usable VM ID, generic fields with one of the disjoint type tags, and the
other categories unrestricted. -/
def allowedCall : AnonCall × String → Prop
  | (.vmName vmId _, _) => vmId = none
  | (.genericField ft, _) => ft ∈ safeFts
  | _ => True

/-- The suffix appended to sequential VM pseudonyms. -/
def vmSfx (filename_suffix : String) : String :=
  if filename_suffix ≠ "" then "_" ++ filename_suffix else ""

/-- A recorded pseudonym has the shape of exactly one category of this
run's state: a categorised prefix with a counter below the state's next
counter value. -/
def ValShape (st : AnonymizationManager) (p : String) : Prop :=
  (∃ k, k < st.host_counter ∧ p = "HOST-" ++ pad4S k) ∨
  (∃ k, k < st.cluster_counter ∧ p = "CLUSTER-" ++ pad4S k) ∨
  (∃ k, k < st.datacenter_counter ∧ p = "DC-" ++ pad4S k) ∨
  (∃ k, k < st.vm_counter ∧ p = "VM-" ++ pad4S k ++ vmSfx st.filename_suffix) ∨
  (∃ ft k, ft ∈ safeFts ∧ k < st.name_mappings.length ∧
    p = ft ++ "-" ++ pad4S k)

/-- Invariant for pseudonym distinctness: every recorded name pseudonym is
categorised, and the recorded pseudonyms are pairwise distinct. -/
def NameInv (st : AnonymizationManager) : Prop :=
  (∀ pr ∈ st.name_mappings, ValShape st pr.2) ∧
  (st.name_mappings.map Prod.snd).Nodup

/-- Relation between a cell before and after the anonymization pass: the
cell is unchanged, or its new value is a nonempty recorded reverse-map key
for its old value. -/
def CellOK (rev : List (String × String)) (old new : String) : Prop :=
  new = old ∨ ((new, old) ∈ rev ∧ new ≠ "")

/-- Invariant of the manager: both forward maps are mirrored in the
reverse map, with nonempty pseudonyms. -/
def MgrInv (st : AnonymizationManager) : Prop :=
  (∀ pr ∈ st.name_mappings,
    (pr.2, pr.1) ∈ st.reverse_mappings ∧ pr.2 ≠ "") ∧
  (∀ pr ∈ st.ip_mappings,
    (pr.2, pr.1) ∈ st.reverse_mappings ∧ pr.2 ≠ "")

/-- One transformation step is sound for the round trip: the manager
invariant is preserved, the reverse map only grows, and the cell's old and
new values stand in the `CellOK` relation. -/
def StepOK (st st' : AnonymizationManager) (a b : String) : Prop :=
  MgrInv st' ∧ st.reverse_mappings <:+ st'.reverse_mappings ∧
    CellOK st'.reverse_mappings a b

/-- Cells whose transformation records an exact reverse mapping: not a
constant redaction, not a DNS composite, and address cells that are single
already-stripped values. -/
def cellSafeB (header v : String) : Bool :=
  !(["Annotation", "Notes", "Description", "Message", "License Key",
      "Serial Number"].contains header) &&
  (!(["DNS Name", "FQDN", "DNS Server", "DNS Servers"].contains header) ||
    !hasChar v '.') &&
  (!(["IP Address", "Primary IP Address", "IPv4 Address", "IPv6 Address",
      "IP Addresses", "Address"].contains header) ||
    (!hasChar v ',' && !hasChar v ';' && pyStripS v = v))

/-- Safety of one data row against the header row (cells beyond the
headers are never transformed). -/
def rowSafeB : List String → List String → Bool
  | _, [] => true
  | [], _ => true
  | c :: cs, h :: hs => cellSafeB h c && rowSafeB cs hs

/-- Safety of a sheet: every data row is safe. -/
def sheetSafeB (s : Sheet) : Bool :=
  match s.rows with
  | [] => true
  | [_] => true
  | headers :: dataRows => dataRows.all fun row => rowSafeB row headers

/-- Safety of a workbook. -/
def workbookSafeB (wb : List Sheet) : Bool := wb.all sheetSafeB

/-- Relation between a sheet before and after the anonymization pass: the
name is kept, the header row is kept, and the cells stand pairwise in the
`CellOK` relation. -/
def SheetOKd (rev : List (String × String)) (s s' : Sheet) : Prop :=
  s'.name = s.name ∧ s'.rows.head? = s.rows.head? ∧
  List.Forall₂ (List.Forall₂ (CellOK rev)) s.rows s'.rows

/-- Invariant of the sheet list during the processing loop: names are
kept, sheets whose name is still pending are untouched and safe, and
every sheet is untouched or fully processed. -/
def SheetRel (ns : List String) (rev : List (String × String))
    (s s' : Sheet) : Prop :=
  s'.name = s.name ∧
  (s.name ∈ ns → s' = s ∧ sheetSafeB s = true) ∧
  (s' = s ∨ SheetOKd rev s s')

/-! ### Decimal rendering: basic lemmas -/

theorem natToDecAux_fuel (n f1 f2 : Nat) (h1 : n < f1) (h2 : n < f2) :
    natToDecAux f1 n = natToDecAux f2 n := by
  induction n using Nat.strong_induction_on generalizing f1 f2 with
  | _ n ih =>
    match f1, f2 with
    | g1 + 1, g2 + 1 =>
      by_cases h10 : n < 10
      · simp [natToDecAux, h10]
      · simp only [natToDecAux, h10, if_false]
        rw [ih (n / 10) (by omega) g1 g2 (by omega) (by omega)]

theorem natToDec_eq (n : Nat) : natToDec n =
    if n < 10 then [Char.ofNat (48 + n)]
    else natToDec (n / 10) ++ [Char.ofNat (48 + n % 10)] := by
  by_cases h10 : n < 10
  · simp [natToDec, natToDecAux, h10]
  · have h1 : natToDec n = natToDecAux n (n / 10) ++ [Char.ofNat (48 + n % 10)] := by
      simp [natToDec, natToDecAux, h10]
    rw [h1, natToDecAux_fuel (n / 10) n (n / 10 + 1) (by omega) (by omega)]
    simp [natToDec, h10]

theorem digitChar_toNat {d : Nat} (h : d < 10) :
    (Char.ofNat (48 + d)).toNat = 48 + d := by
  interval_cases d <;> decide

theorem digitChar_isDig {d : Nat} (h : d < 10) :
    isDig (Char.ofNat (48 + d)) = true := by
  interval_cases d <;> decide

theorem digitChar_ne_dash {d : Nat} (h : d < 10) :
    Char.ofNat (48 + d) ≠ '-' := by
  interval_cases d <;> decide

theorem digitChar_ne_zero {d : Nat} (h1 : 1 ≤ d) (h2 : d < 10) :
    Char.ofNat (48 + d) ≠ '0' := by
  interval_cases d <;> decide

theorem decVal_append_digit (xs : List Char) (c : Char) :
    decVal (xs ++ [c]) = 10 * decVal xs + (c.toNat - 48) := by
  simp [decVal, List.foldl_append]

theorem decVal_natToDec (n : Nat) : decVal (natToDec n) = n := by
  induction n using Nat.strong_induction_on with
  | _ n ih =>
    rw [natToDec_eq]
    by_cases h10 : n < 10
    · simp [h10, decVal, digitChar_toNat h10]
    · simp only [h10, if_false]
      rw [decVal_append_digit, ih (n / 10) (by omega),
        digitChar_toNat (by omega)]
      omega

theorem natToDec_inj {m n : Nat} (h : natToDec m = natToDec n) : m = n := by
  have := decVal_natToDec m
  rw [h, decVal_natToDec] at this
  omega

theorem natToDec_ne_nil (n : Nat) : natToDec n ≠ [] := by
  rw [natToDec_eq]
  by_cases h10 : n < 10 <;> simp [h10]

theorem natToDec_all_digits (n : Nat) : ∀ c ∈ natToDec n, isDig c := by
  induction n using Nat.strong_induction_on with
  | _ n ih =>
    rw [natToDec_eq]
    by_cases h10 : n < 10
    · simp only [h10, if_true, List.mem_singleton]
      rintro c rfl
      exact digitChar_isDig h10
    · simp only [h10, if_false, List.mem_append, List.mem_singleton]
      rintro c (hc | rfl)
      · exact ih (n / 10) (by omega) c hc
      · exact digitChar_isDig (by omega)

theorem natToDec_length_le (n k : Nat) (hk : 0 < k) (h : n < 10 ^ k) :
    (natToDec n).length ≤ k := by
  induction n using Nat.strong_induction_on generalizing k with
  | _ n ih =>
    rw [natToDec_eq]
    by_cases h10 : n < 10
    · simp only [h10, if_true, List.length_singleton]
      omega
    · simp only [h10, if_false, List.length_append, List.length_singleton]
      have hk2 : 2 ≤ k := by
        by_contra hlt
        have hk1 : k = 1 := by omega
        subst hk1
        simp at h
        omega
      have hdiv : n / 10 < 10 ^ (k - 1) := by
        have hpow : 10 ^ k = 10 ^ (k - 1) * 10 := by
          conv_lhs => rw [show k = (k - 1) + 1 by omega]
          ring
        rw [hpow] at h
        omega
      have := ih (n / 10) (by omega) (k - 1) (by omega) hdiv
      omega

theorem natToDec_head_ne_zero {n : Nat} (h : 1 ≤ n) :
    (natToDec n).headD ' ' ≠ '0' := by
  induction n using Nat.strong_induction_on with
  | _ n ih =>
    rw [natToDec_eq]
    by_cases h10 : n < 10
    · simp only [h10, if_true, List.headD]
      exact digitChar_ne_zero h h10
    · simp only [h10, if_false]
      rcases List.exists_cons_of_ne_nil (natToDec_ne_nil (n / 10)) with
        ⟨c, cs, hc⟩
      rw [hc]
      have := ih (n / 10) (by omega) (by omega)
      rw [hc] at this
      simpa using this

theorem parseOctet_natToDec {k : Nat} (h : k ≤ 255) :
    parseOctet (natToDec k) = some k := by
  rcases List.exists_cons_of_ne_nil (natToDec_ne_nil k) with ⟨c, cs, hc⟩
  have hne : (natToDec k).isEmpty = false := by rw [hc]; rfl
  have hdig : (natToDec k).all isDig = true := by
    rw [List.all_eq_true]
    exact natToDec_all_digits k
  have hlen : ¬((natToDec k).length > 3) := by
    have := natToDec_length_le k 3 (by omega) (by omega)
    omega
  have hlead : ¬((natToDec k).length > 1 ∧ (natToDec k).headD ' ' = '0') := by
    rintro ⟨hgt, hz⟩
    have hk : 10 ≤ k := by
      by_contra hlt
      rw [natToDec_eq] at hgt
      simp [show k < 10 by omega] at hgt
    exact natToDec_head_ne_zero (by omega) hz
  rw [parseOctet]
  rw [if_neg (by simp [hne])]
  rw [if_neg (by simp [hdig])]
  rw [if_neg hlen]
  rw [if_neg (by
    simp only [Bool.and_eq_true, decide_eq_true_eq]
    rintro ⟨hgt, hz⟩
    exact hlead ⟨hgt, hz⟩)]
  rw [decVal_natToDec, if_pos h]

/-! ### Zero padding -/

theorem decVal_replicate_zero (m : Nat) (xs : List Char) :
    decVal (List.replicate m '0' ++ xs) = decVal xs := by
  induction m with
  | zero => simp
  | succ k ih =>
    have : List.replicate (k + 1) '0' ++ xs = '0' :: (List.replicate k '0' ++ xs) := by
      simp [List.replicate_succ]
    rw [this]
    simpa [decVal] using ih

theorem decVal_pad4 (n : Nat) : decVal (pad4 n) = n := by
  rw [pad4, decVal_replicate_zero, decVal_natToDec]

theorem pad4_inj {m n : Nat} (h : pad4 m = pad4 n) : m = n := by
  have := decVal_pad4 m
  rw [h, decVal_pad4] at this
  omega

theorem pad4_all_digits (n : Nat) : ∀ c ∈ pad4 n, isDig c := by
  intro c hc
  rw [pad4, List.mem_append] at hc
  rcases hc with hc | hc
  · rw [List.eq_of_mem_replicate hc]
    decide
  · exact natToDec_all_digits n c hc

theorem isDig_ne_dash {c : Char} (h : isDig c = true) : c ≠ '-' := by
  rintro rfl
  simp [isDig] at h

theorem isDig_ne_dot {c : Char} (h : isDig c = true) : c ≠ '.' := by
  rintro rfl
  simp [isDig] at h

/-! ### Splitting and joining -/

theorem splitChars_of_not_mem {sep : Char} {xs : List Char}
    (h : sep ∉ xs) : splitChars sep xs = [xs] := by
  induction xs with
  | nil => rfl
  | cons c cs ih =>
    have hc : c ≠ sep := by rintro rfl; exact h (by simp)
    have ih2 := ih (by intro hm; exact h (by simp [hm]))
    simp [splitChars, hc, ih2]

theorem splitChars_append {sep : Char} {xs ys : List Char} (h : sep ∉ xs) :
    splitChars sep (xs ++ sep :: ys) = xs :: splitChars sep ys := by
  induction xs with
  | nil => simp [splitChars]
  | cons c cs ih =>
    have hc : c ≠ sep := by rintro rfl; exact h (by simp)
    have ih2 := ih (by intro hm; exact h (by simp [hm]))
    simp [splitChars, hc, ih2]

theorem chars_strOf (cs : List Char) : chars (strOf cs) = cs := rfl

theorem strOf_inj {cs ds : List Char} (h : strOf cs = strOf ds) :
    cs = ds := by
  have : (strOf cs).data = (strOf ds).data := by rw [h]
  exact this

theorem dot_not_mem_natToDec (n : Nat) : '.' ∉ natToDec n := by
  intro hm
  exact isDig_ne_dot (natToDec_all_digits n '.' hm) rfl

theorem parseIPv4_of_split {s : String} {p1 p2 p3 p4 : List Char}
    (h : splitChars '.' (chars s) = [p1, p2, p3, p4]) :
    parseIPv4 s =
      match parseOctet p1, parseOctet p2, parseOctet p3, parseOctet p4 with
      | some a, some b, some c, some d => some (a, b, c, d)
      | _, _, _, _ => none := by
  rw [parseIPv4, h]

/-- Parsing the rendering of a 32-bit value recovers its four octets. -/
theorem parseIPv4_ipv4ToString (n : Nat) :
    parseIPv4 (ipv4ToString n) =
      some (n / 16777216 % 256, n / 65536 % 256, n / 256 % 256, n % 256) := by
  have hsplit : splitChars '.' (chars (ipv4ToString n)) =
      [natToDec (n / 16777216 % 256), natToDec (n / 65536 % 256),
       natToDec (n / 256 % 256), natToDec (n % 256)] := by
    rw [ipv4ToString, chars_strOf]
    rw [show natToDec (n / 16777216 % 256) ++ '.' :: natToDec (n / 65536 % 256)
        ++ '.' :: natToDec (n / 256 % 256) ++ '.' :: natToDec (n % 256) =
        natToDec (n / 16777216 % 256) ++ '.' :: (natToDec (n / 65536 % 256)
        ++ '.' :: (natToDec (n / 256 % 256) ++ '.' :: natToDec (n % 256)))
      from by simp]
    rw [splitChars_append (dot_not_mem_natToDec _),
      splitChars_append (dot_not_mem_natToDec _),
      splitChars_append (dot_not_mem_natToDec _),
      splitChars_of_not_mem (dot_not_mem_natToDec _)]
  rw [parseIPv4_of_split hsplit]
  rw [parseOctet_natToDec (by omega), parseOctet_natToDec (by omega),
    parseOctet_natToDec (by omega), parseOctet_natToDec (by omega)]

theorem parseOctet_le {cs : List Char} {v : Nat}
    (h : parseOctet cs = some v) : v ≤ 255 := by
  rw [parseOctet] at h
  split at h
  · exact absurd h (by simp)
  · split at h
    · exact absurd h (by simp)
    · split at h
      · exact absurd h (by simp)
      · split at h
        · exact absurd h (by simp)
        · split at h
          · rename_i hle
            cases h
            exact hle
          · exact absurd h (by simp)

theorem parseIPv4_bounds {s : String} {a b c d : Nat}
    (h : parseIPv4 s = some (a, b, c, d)) :
    a ≤ 255 ∧ b ≤ 255 ∧ c ≤ 255 ∧ d ≤ 255 := by
  rw [parseIPv4] at h
  split at h
  · rename_i p1 p2 p3 p4 heq
    split at h
    · rename_i v1 v2 v3 v4 h1 h2 h3 h4
      cases h
      exact ⟨parseOctet_le h1, parseOctet_le h2, parseOctet_le h3,
        parseOctet_le h4⟩
    · exact absurd h (by simp)
  · exact absurd h (by simp)

theorem parseIPv4_empty : parseIPv4 "" = none := rfl

/-! ### Bit arithmetic of the IPv4 transform -/

theorem mask_window (y z k m : Nat) (hz : z < 2 ^ k) :
    (y * 2 ^ k + z) &&& ((2 ^ m - 1) <<< k) = y % 2 ^ m * 2 ^ k := by
  apply Nat.eq_of_testBit_eq
  intro j
  rw [Nat.testBit_and, Nat.testBit_shiftLeft, Nat.testBit_two_pow_sub_one]
  rw [show y * 2 ^ k + z = 2 ^ k * y + z from by ring_nf]
  rw [Nat.testBit_mul_pow_two_add y hz j]
  rw [show y % 2 ^ m * 2 ^ k = 2 ^ k * (y % 2 ^ m) from by ring_nf]
  rw [Nat.testBit_mul_pow_two, Nat.testBit_mod_two_pow]
  by_cases hj : j < k
  · simp [hj, Nat.not_le.mpr hj]
  · have hk : k ≤ j := Nat.not_lt.mp hj
    simp [hj, hk, Bool.and_comm]

theorem or_add_high (x y k : Nat) (hx : ∃ q, x = 2 ^ k * q)
    (hy : y < 2 ^ k) : x ||| y = x + y := by
  rcases hx with ⟨q, rfl⟩
  rw [← Nat.mul_add_lt_is_or hy q]

/-- Closed arithmetic form of the synthetic address construction. -/
theorem anon_ip_arith (nid b d : Nat) (hnid : nid ≤ 255) (hb : b ≤ 255)
    (hd : d ≤ 255) :
    0x0A000000 ||| (nid <<< 16) ||| (b * 256) ||| d =
      167772160 + nid * 65536 + b * 256 + d := by
  rw [Nat.shiftLeft_eq]
  rw [or_add_high 0x0A000000 (nid * 2 ^ 16) 24 ⟨10, by norm_num⟩ (by omega)]
  rw [or_add_high (0x0A000000 + nid * 2 ^ 16) (b * 256) 16
    ⟨2 ^ 8 * 10 + nid, by ring_nf⟩ (by omega)]
  rw [or_add_high (0x0A000000 + nid * 2 ^ 16 + b * 256) d 8
    ⟨2 ^ 16 * 10 + nid * 2 ^ 8 + b, by ring_nf⟩ (by omega)]

theorem netId_ge_one (a b c : Nat) : 1 ≤ netId a b c := by
  rw [netId]
  omega

theorem netId_le (a b c : Nat) : netId a b c ≤ 254 := by
  rw [netId]
  have := Nat.mod_lt (hexVal (networkHash4 (a * 16777216 + b * 65536 + c * 256)))
    (show 0 < 254 by omega)
  omega

/-- Closed form of `anonymize_single_ip` on a fresh valid IPv4 address:
the synthetic address is `10.<netId>.<b>.<d>` as a 32-bit value, and the
two maps record the substitution. -/
theorem single_ip_valid (st : AnonymizationManager) (s : String)
    {a b c d : Nat} (hp : parseIPv4 s = some (a, b, c, d))
    (hm : lookup st.ip_mappings s = none) :
    anonymize_single_ip st s =
      (ipv4ToString (167772160 + netId a b c * 65536 + b * 256 + d),
        { st with
          ip_mappings := store st.ip_mappings s
            (ipv4ToString (167772160 + netId a b c * 65536 + b * 256 + d))
          reverse_mappings := store st.reverse_mappings
            (ipv4ToString (167772160 + netId a b c * 65536 + b * 256 + d))
            s }) := by
  obtain ⟨ha, hb, hc, hd⟩ := parseIPv4_bounds hp
  have hs : ¬(s = "") := by
    rintro rfl
    rw [parseIPv4_empty] at hp
    cases hp
  have hnet : ipv4Int a b c d &&& 4294967040 =
      a * 16777216 + b * 65536 + c * 256 := by
    rw [ipv4Int]
    rw [show a * 16777216 + b * 65536 + c * 256 + d =
      (a * 65536 + b * 256 + c) * 2 ^ 8 + d from by ring]
    rw [show (4294967040 : Nat) = (2 ^ 24 - 1) <<< 8 from by decide]
    rw [mask_window (a * 65536 + b * 256 + c) d 8 24 (by omega)]
    rw [Nat.mod_eq_of_lt (show a * 65536 + b * 256 + c < 2 ^ 24 by omega)]
    ring
  have hhost : ipv4Int a b c d &&& 255 = d := by
    rw [ipv4Int, show (255 : Nat) = 2 ^ 8 - 1 from rfl,
      Nat.and_pow_two_sub_one_eq_mod]
    omega
  have hshift : (a * 16777216 + b * 65536 + c * 256) >>> 8 &&& 65280 =
      b * 256 := by
    rw [Nat.shiftRight_eq_div_pow]
    rw [show (a * 16777216 + b * 65536 + c * 256) / 2 ^ 8 =
      (a * 256 + b) * 2 ^ 8 + c from by omega]
    rw [show (65280 : Nat) = (2 ^ 8 - 1) <<< 8 from by decide]
    rw [mask_window (a * 256 + b) c 8 8 (by omega)]
    rw [show (a * 256 + b) % 2 ^ 8 = b from by omega]
    norm_num
  have hnid : hexVal ((md5hex (natToDecS
      (a * 16777216 + b * 65536 + c * 256))).take 4) % 254 + 1 =
      netId a b c := rfl
  simp only [anonymize_single_ip, hs, if_false, hm, hp]
  rw [hnet, hhost, hshift, hnid]
  rw [anon_ip_arith (netId a b c) b d (by have := netId_le a b c; omega)
    hb hd]

/-- The octets of the synthetic address of a fresh valid IPv4 address. -/
theorem single_ip_out_octets (st : AnonymizationManager) (s : String)
    {a b c d : Nat} (hp : parseIPv4 s = some (a, b, c, d))
    (hm : lookup st.ip_mappings s = none) :
    parseIPv4 (st.anonymize_single_ip s).1 =
      some (10, netId a b c, b, d) := by
  obtain ⟨ha, hb, hc, hd⟩ := parseIPv4_bounds hp
  have h1 := netId_le a b c
  have h2 := netId_ge_one a b c
  rw [single_ip_valid st s hp hm]
  show parseIPv4 (ipv4ToString _) = _
  rw [parseIPv4_ipv4ToString]
  rw [show (167772160 + netId a b c * 65536 + b * 256 + d) / 16777216 % 256
    = 10 from by omega]
  rw [show (167772160 + netId a b c * 65536 + b * 256 + d) / 65536 % 256
    = netId a b c from by omega]
  rw [show (167772160 + netId a b c * 65536 + b * 256 + d) / 256 % 256
    = b from by omega]
  rw [show (167772160 + netId a b c * 65536 + b * 256 + d) % 256
    = d from by omega]

theorem lookup_store (m : List (String × String)) (k v k' : String) :
    lookup (store m k v) k' = if k = k' then some v else lookup m k' := by
  by_cases h : k = k'
  · subst h
    simp [lookup, store, List.find?]
  · simp only [lookup, store, List.find?]
    have : (decide ((k, v).1 = k')) = false := by
      simp only [decide_eq_false_iff_not]
      exact h
    rw [this]
    simp [lookup, h]

/-- A memoised address is returned unchanged with unchanged state. -/
theorem single_ip_memo (st : AnonymizationManager) (s r : String)
    (h : lookup st.ip_mappings s = some r) :
    st.anonymize_single_ip s = (r, st) := by
  by_cases hs : s = ""
  · subst hs
    simp [AnonymizationManager.anonymize_single_ip, h]
  · simp [AnonymizationManager.anonymize_single_ip, hs, h]

theorem splitChars_ne_nil (sep : Char) (xs : List Char) :
    splitChars sep xs ≠ [] := by
  cases xs with
  | nil => simp [splitChars]
  | cons c cs =>
    rw [splitChars]
    by_cases hc : c = sep
    · simp [hc]
    · simp only [hc, if_false]
      split <;> simp

theorem mem_of_splitChars {sep : Char} {xs : List Char} {c : Char}
    (hm : c ∈ xs) :
    c = sep ∨ ∃ p ∈ splitChars sep xs, c ∈ p := by
  induction xs with
  | nil => cases hm
  | cons x rest ih =>
    rw [splitChars]
    by_cases hx : x = sep
    · rcases List.mem_cons.mp hm with rfl | hr
      · exact Or.inl hx
      · rcases ih hr with h | ⟨p, hp, hcp⟩
        · exact Or.inl h
        · exact Or.inr ⟨p, by simp [hx, hp], hcp⟩
    · simp only [hx, if_false]
      rcases hsp : splitChars sep rest with _ | ⟨r, rs⟩
      · exact absurd hsp (splitChars_ne_nil sep rest)
      · rcases List.mem_cons.mp hm with rfl | hr
        · exact Or.inr ⟨c :: r, by simp, by simp⟩
        · rcases ih hr with h | ⟨p, hp, hcp⟩
          · exact Or.inl h
          · rw [hsp] at hp
            rcases List.mem_cons.mp hp with rfl | hp2
            · exact Or.inr ⟨x :: p, by simp, by simp [hcp]⟩
            · exact Or.inr ⟨p, by simp [hp2], hcp⟩

/-- Every character of an IPv4-shaped string is a digit or a dot. -/
theorem shaped_chars {s : String} (h : shapedIPv4 s = true) :
    ∀ c ∈ chars s, isDig c = true ∨ c = '.' := by
  intro c hc
  rw [shapedIPv4] at h
  rcases @mem_of_splitChars '.' _ _ hc with rfl | ⟨p, hp, hcp⟩
  · exact Or.inr rfl
  · split at h
    · rename_i p1 p2 p3 p4 heq
      rw [heq] at hp
      simp only [Bool.and_eq_true] at h
      fin_cases hp
      · exact Or.inl (List.all_eq_true.mp h.1.1.1.2 c hcp)
      · exact Or.inl (List.all_eq_true.mp h.1.1.2.2 c hcp)
      · exact Or.inl (List.all_eq_true.mp h.1.2.2 c hcp)
      · exact Or.inl (List.all_eq_true.mp h.2.2 c hcp)
    · cases h

/-- An IPv4-shaped string is never a valid IPv6 address. -/
theorem shaped_not_ipv6 {s : String} (h : shapedIPv4 s = true) :
    isValidIPv6 s = false := by
  have hpc : '%' ∉ chars s := by
    intro hm
    rcases shaped_chars h '%' hm with hd | hd
    · simp [isDig] at hd
    · cases hd
  have hcc : ':' ∉ chars s := by
    intro hm
    rcases shaped_chars h ':' hm with hd | hd
    · simp [isDig] at hd
    · cases hd
  rw [isValidIPv6, splitChars_of_not_mem hpc]
  simp only [isValidIPv6Core, splitChars_of_not_mem hcc]
  simp

theorem dropWhile_no_ws (ys : List Char)
    (hy : ∀ c ∈ ys, c.isWhitespace = false) :
    ys.dropWhile Char.isWhitespace = ys := by
  cases ys with
  | nil => rfl
  | cons c cs =>
    rw [List.dropWhile_cons, if_neg]
    simp [hy c (by simp)]

theorem pyStrip_of_no_ws {xs : List Char}
    (h : ∀ c ∈ xs, c.isWhitespace = false) : pyStrip xs = xs := by
  rw [pyStrip, dropWhile_no_ws xs h,
    dropWhile_no_ws _ (by intro c hc; exact h c (List.mem_reverse.mp hc)),
    List.reverse_reverse]

theorem parseOctet_digits {p : List Char} {v : Nat}
    (h : parseOctet p = some v) : p.all isDig = true := by
  rw [parseOctet] at h
  split at h
  · exact absurd h (by simp)
  · split at h
    · exact absurd h (by simp)
    · rename_i hdig
      simpa using hdig

/-- Every character of a parseable IPv4 address is a digit or a dot. -/
theorem parseIPv4_chars {s : String} {q : Nat × Nat × Nat × Nat}
    (h : parseIPv4 s = some q) :
    ∀ c ∈ chars s, isDig c = true ∨ c = '.' := by
  intro c hc
  rw [parseIPv4] at h
  rcases @mem_of_splitChars '.' _ _ hc with rfl | ⟨p, hp, hcp⟩
  · exact Or.inr rfl
  · split at h
    · rename_i p1 p2 p3 p4 heq
      rw [heq] at hp
      split at h
      · rename_i v1 v2 v3 v4 h1 h2 h3 h4
        fin_cases hp
        · exact Or.inl (List.all_eq_true.mp (parseOctet_digits h1) c hcp)
        · exact Or.inl (List.all_eq_true.mp (parseOctet_digits h2) c hcp)
        · exact Or.inl (List.all_eq_true.mp (parseOctet_digits h3) c hcp)
        · exact Or.inl (List.all_eq_true.mp (parseOctet_digits h4) c hcp)
      · exact absurd h (by simp)
    · exact absurd h (by simp)

theorem isDig_not_ws {c : Char} (h : isDig c = true) :
    c.isWhitespace = false := by
  by_contra hws
  rw [Bool.not_eq_false] at hws
  simp only [Char.isWhitespace, Bool.or_eq_true, decide_eq_true_eq] at hws
  rcases hws with ((h1 | h1) | h1) | h1 <;> (subst h1; simp [isDig] at h)

theorem parseIPv4_chars_tame {s : String} {q : Nat × Nat × Nat × Nat}
    (h : parseIPv4 s = some q) :
    ∀ c ∈ chars s, c.isWhitespace = false ∧ c ≠ ';' ∧ c ≠ ',' := by
  intro c hc
  rcases parseIPv4_chars h c hc with hd | rfl
  · exact ⟨isDig_not_ws hd, fun he => by subst he; simp [isDig] at hd,
      fun he => by subst he; simp [isDig] at hd⟩
  · refine ⟨by decide, by decide, by decide⟩

theorem strOf_chars (s : String) : strOf (chars s) = s := rfl

theorem ne_empty_of_data {s : String} (h : s.data ≠ []) : s ≠ "" := by
  intro he
  subst he
  exact h rfl

theorem ipv4ToString_ne_empty (n : Nat) : ipv4ToString n ≠ "" := by
  intro he
  have hd : chars (ipv4ToString n) = chars "" := by rw [he]
  rw [ipv4ToString, chars_strOf] at hd
  simp [chars] at hd

/-- `anonymize_ip_address` on the `;`-joined pair of two fresh parseable
IPv4 addresses: each sub-value is transformed by the single-address
transform in order, and the results are rejoined with `;`. -/
theorem ip_address_two_values (st : AnonymizationManager) (s1 s2 : String)
    (q1 q2 : Nat × Nat × Nat × Nat)
    (h1 : parseIPv4 s1 = some q1) (h2 : parseIPv4 s2 = some q2)
    (hm1 : lookup st.ip_mappings s1 = none)
    (hm2 : lookup st.ip_mappings s2 = none) :
    st.anonymize_ip_address (s1 ++ ";" ++ s2) =
      ((st.anonymize_single_ip s1).1 ++ ";" ++
        ((st.anonymize_single_ip s1).2.anonymize_single_ip s2).1,
       ((st.anonymize_single_ip s1).2.anonymize_single_ip s2).2) := by
  obtain ⟨a1, b1, c1, d1⟩ := q1
  obtain ⟨a2, b2, c2, d2⟩ := q2
  have hdata : chars (s1 ++ ";" ++ s2) = chars s1 ++ ';' :: chars s2 := by
    show (s1 ++ ";" ++ s2).data = _
    rw [String.data_append, String.data_append]
    simp [chars]
  have htame1 := parseIPv4_chars_tame h1
  have htame2 := parseIPv4_chars_tame h2
  have hnws : ∀ c ∈ chars (s1 ++ ";" ++ s2), c.isWhitespace = false := by
    rw [hdata]
    intro c hc
    rcases List.mem_append.mp hc with hc1 | hc2
    · exact (htame1 c hc1).1
    · rcases List.mem_cons.mp hc2 with rfl | hc3
      · decide
      · exact (htame2 c hc3).1
  have hstrip : pyStripS (s1 ++ ";" ++ s2) = s1 ++ ";" ++ s2 := by
    show strOf (pyStrip (chars (s1 ++ ";" ++ s2))) = _
    rw [pyStrip_of_no_ws hnws, strOf_chars]
  have hne : ¬(s1 ++ ";" ++ s2 = "") := by
    apply ne_empty_of_data
    show chars (s1 ++ ";" ++ s2) ≠ []
    rw [hdata]
    simp
  have hsemi1 : ';' ∉ chars s1 := fun hm => (htame1 ';' hm).2.1 rfl
  have hsemi2 : ';' ∉ chars s2 := fun hm => (htame2 ';' hm).2.1 rfl
  have hcomma : hasChar (s1 ++ ";" ++ s2) ',' = false := by
    rw [hasChar, hdata]
    simp only [List.contains, List.elem_eq_mem, decide_eq_false_iff_not,
      List.mem_append, List.mem_cons]
    rintro (hc1 | heq | hc2)
    · exact (htame1 ',' hc1).2.2 rfl
    · exact absurd heq (by decide)
    · exact (htame2 ',' hc2).2.2 rfl
  have hsemi : hasChar (s1 ++ ";" ++ s2) ';' = true := by
    rw [hasChar, hdata]
    simp
  have hsplit : splitChars ';' (chars (s1 ++ ";" ++ s2)) =
      [chars s1, chars s2] := by
    rw [hdata, splitChars_append hsemi1, splitChars_of_not_mem hsemi2]
  have hmap : (splitChars ';' (chars (s1 ++ ";" ++ s2))).map
      (fun p => strOf (pyStrip p)) = [s1, s2] := by
    rw [hsplit]
    simp only [List.map_cons, List.map_nil]
    rw [pyStrip_of_no_ws (fun c hc => (htame1 c hc).1),
      pyStrip_of_no_ws (fun c hc => (htame2 c hc).1),
      strOf_chars, strOf_chars]
  have hr1 : (st.anonymize_single_ip s1).1 =
      ipv4ToString (167772160 + netId a1 b1 c1 * 65536 + b1 * 256 + d1) := by
    rw [single_ip_valid st s1 h1 hm1]
  have hr1ne : (st.anonymize_single_ip s1).1 ≠ "" := by
    rw [hr1]
    exact ipv4ToString_ne_empty _
  have hr2ne : ((st.anonymize_single_ip s1).2.anonymize_single_ip s2).1
      ≠ "" := by
    by_cases hss : s1 = s2
    · subst hss
      rw [single_ip_valid st s1 h1 hm1] at hr1ne ⊢
      rw [single_ip_memo _ s1
        (ipv4ToString (167772160 + netId a1 b1 c1 * 65536 + b1 * 256 + d1))
        (by rw [lookup_store]; simp)]
      simpa using hr1ne
    · rw [single_ip_valid st s1 h1 hm1]
      rw [single_ip_valid _ s2 h2
        (by rw [lookup_store, if_neg hss]; exact hm2)]
      exact ipv4ToString_ne_empty _
  have hpair : anonymizeIPList st [s1, s2] =
      ([(st.anonymize_single_ip s1).1,
        ((st.anonymize_single_ip s1).2.anonymize_single_ip s2).1],
       ((st.anonymize_single_ip s1).2.anonymize_single_ip s2).2) := by
    simp only [anonymizeIPList, hr1ne, hr2ne, if_true, ne_eq,
      not_false_iff, if_pos]
  have hjoin : strOf (joinChars ';'
      ([(st.anonymize_single_ip s1).1,
        ((st.anonymize_single_ip s1).2.anonymize_single_ip s2).1].map
        chars)) =
      (st.anonymize_single_ip s1).1 ++ ";" ++
        ((st.anonymize_single_ip s1).2.anonymize_single_ip s2).1 := by
    apply String.ext
    rw [String.data_append, String.data_append]
    simp [joinChars, strOf, chars]
  simp only [AnonymizationManager.anonymize_ip_address, hstrip, hne,
    if_false, hcomma, hsemi, Bool.false_eq_true, Bool.or_self, or_true,
    or_false, if_true, Bool.true_eq_false, hmap, hpair, hjoin]
  simp

set_option maxRecDepth 40000 in
/-- C3, counterexample.  The claim asserts that the third octet of the
anonymized address is a hash-derived value.  The only hash the transform
computes is `networkHash4` of the network; the two networks `1.9.1.0`
(decimal value 17367296) and `1.116.0.0` (decimal value 24379392) have
the same `networkHash4` (hence the same network id 59), yet the two
addresses anonymize to forms with different third octets 9 and 116 — each
equal to the original second octet, copied verbatim, so the third octet
is not derived from the hash. -/
theorem third_octet_not_hash_derived :
    networkHash4 17367296 = networkHash4 24379392 ∧
    parseIPv4
      ((AnonymizationManager.init "").anonymize_single_ip "1.9.1.7").1 =
      some (10, 59, 9, 7) ∧
    parseIPv4
      ((AnonymizationManager.init "").anonymize_single_ip "1.116.0.7").1 =
      some (10, 59, 116, 7) := by
  decide

/-- C3 (amended): for a valid IPv4 address `a.b.c.d` not yet mapped, the
anonymized address parses as `10.nid.b.d`: it lies in `10.0.0.0/8`, its
second octet `nid` is the digest of the original three-octet network
reduced modulo 254 plus 1 (hence between 1 and 254, never 0), its last
octet is the original last octet verbatim — but its third octet is the
original second octet `b` copied verbatim, not a hash-derived value. -/
theorem anonymized_ipv4_structure (st : AnonymizationManager) (s : String)
    (a b c d : Nat) (hp : parseIPv4 s = some (a, b, c, d))
    (hm : lookup st.ip_mappings s = none) :
    parseIPv4 (st.anonymize_single_ip s).1 = some (10, netId a b c, b, d) ∧
    netId a b c =
      hexVal (networkHash4 (a * 16777216 + b * 65536 + c * 256)) % 254 + 1 ∧
    1 ≤ netId a b c ∧ netId a b c ≤ 254 :=
  ⟨single_ip_out_octets st s hp hm, rfl, netId_ge_one a b c, netId_le a b c⟩

set_option maxRecDepth 40000 in
/-- Witness for `anonymized_ipv4_structure` at `192.168.1.50`. -/
theorem anonymized_ipv4_structure_witness :
    parseIPv4
      ((AnonymizationManager.init "").anonymize_single_ip "192.168.1.50").1 =
      some (10, netId 192 168 1, 168, 50) ∧
    netId 192 168 1 =
      hexVal (networkHash4 (192 * 16777216 + 168 * 65536 + 1 * 256)) % 254
        + 1 ∧
    1 ≤ netId 192 168 1 ∧ netId 192 168 1 ≤ 254 :=
  anonymized_ipv4_structure (AnonymizationManager.init "") "192.168.1.50"
    192 168 1 50 (by decide) rfl

/-! ### Claim C4 -/

/-- C4: two valid IPv4 addresses sharing the same first three octets,
anonymized one after the other in the same run, anonymize to addresses
sharing the same second and third synthetic octets (`netId a b c` and
`b`); each output's last octet equals its input's last octet verbatim, so
two addresses differing only in the last octet anonymize to addresses
differing only in the last octet, by the same amounts. -/
theorem network_preservation (st : AnonymizationManager) (s1 s2 : String)
    (a b c d1 d2 : Nat)
    (h1 : parseIPv4 s1 = some (a, b, c, d1))
    (h2 : parseIPv4 s2 = some (a, b, c, d2))
    (hm1 : lookup st.ip_mappings s1 = none)
    (hm2 : lookup st.ip_mappings s2 = none) :
    parseIPv4 (st.anonymize_single_ip s1).1 =
      some (10, netId a b c, b, d1) ∧
    parseIPv4 ((st.anonymize_single_ip s1).2.anonymize_single_ip s2).1 =
      some (10, netId a b c, b, d2) := by
  refine ⟨single_ip_out_octets st s1 h1 hm1, ?_⟩
  by_cases hss : s1 = s2
  · subst hss
    rw [h1] at h2
    have hd : d1 = d2 := by simpa using h2
    subst hd
    have hout := single_ip_out_octets st s1 h1 hm1
    rw [single_ip_valid st s1 h1 hm1] at hout ⊢
    rw [single_ip_memo _ s1
      (ipv4ToString (167772160 + netId a b c * 65536 + b * 256 + d1))
      (by rw [lookup_store]; simp)]
    exact hout
  · rw [single_ip_valid st s1 h1 hm1]
    exact single_ip_out_octets _ s2 h2
      (by rw [lookup_store, if_neg hss]; exact hm2)

set_option maxRecDepth 40000 in
/-- Witness for `network_preservation` at `192.168.1.50`/`192.168.1.99`. -/
theorem network_preservation_witness :
    parseIPv4
      ((AnonymizationManager.init "").anonymize_single_ip "192.168.1.50").1 =
      some (10, netId 192 168 1, 168, 50) ∧
    parseIPv4
      (((AnonymizationManager.init "").anonymize_single_ip
        "192.168.1.50").2.anonymize_single_ip "192.168.1.99").1 =
      some (10, netId 192 168 1, 168, 99) :=
  network_preservation (AnonymizationManager.init "") "192.168.1.50"
    "192.168.1.99" 192 168 1 50 99 (by decide) (by decide) rfl rfl

/-! ### Claim C7 -/

set_option maxRecDepth 100000 in
/-- C7: a multi-valued address field is split, each sub-value transformed
independently by the single-address transform, and rejoined with the
original separator (shown in general for the `;`-joined pair of two fresh
parseable addresses, and concretely for both separators); empty
sub-results are dropped (the blank sub-value between the two semicolons
disappears); the scenario `"10.0.0.1;10.0.0.2"` yields two values joined
by `;`, both sharing the same synthetic network id `212 = netId 10 0 0`. -/
theorem multi_value_address_field :
    (∀ (st : AnonymizationManager) (s1 s2 : String) q1 q2,
      parseIPv4 s1 = some q1 → parseIPv4 s2 = some q2 →
      lookup st.ip_mappings s1 = none → lookup st.ip_mappings s2 = none →
      (st.anonymize_ip_address (s1 ++ ";" ++ s2)).1 =
        (st.anonymize_single_ip s1).1 ++ ";" ++
          ((st.anonymize_single_ip s1).2.anonymize_single_ip s2).1) ∧
    ((AnonymizationManager.init "").anonymize_ip_address
      "10.0.0.1;10.0.0.2").1 = "10.212.0.1;10.212.0.2" ∧
    netId 10 0 0 = 212 ∧
    ((AnonymizationManager.init "").anonymize_ip_address
      "10.0.0.1; ;10.0.0.2").1 = "10.212.0.1;10.212.0.2" ∧
    ((AnonymizationManager.init "").anonymize_ip_address
      "1.2.3.4,5.6.7.8").1 = "10.18.2.4,10.16.6.8" := by
  refine ⟨fun st s1 s2 q1 q2 h1 h2 hm1 hm2 => by
    rw [ip_address_two_values st s1 s2 q1 q2 h1 h2 hm1 hm2], ?_, ?_, ?_, ?_⟩
  · decide
  · decide
  · decide
  · decide

set_option maxRecDepth 100000 in
/-- Witness for the general part of `multi_value_address_field`. -/
theorem multi_value_address_field_witness :
    ((AnonymizationManager.init "").anonymize_ip_address
      ("10.0.0.1" ++ ";" ++ "10.0.0.2")).1 =
      ((AnonymizationManager.init "").anonymize_single_ip "10.0.0.1").1 ++
        ";" ++ (((AnonymizationManager.init "").anonymize_single_ip
          "10.0.0.1").2.anonymize_single_ip "10.0.0.2").1 :=
  multi_value_address_field.1 (AnonymizationManager.init "") "10.0.0.1"
    "10.0.0.2" (10, 0, 0, 1) (10, 0, 0, 2) (by decide) (by decide) rfl rfl

/-! ### Claim C8 -/

/-- C8: a value that is not lexically IPv4-shaped, not a parseable IPv4
address and not a parseable IPv6 address passes through the single-address
transform unchanged, with the state untouched; a lexically IPv4-shaped but
invalid value is mapped to the deterministic substitute
`10.0.0.(n mod 254 + 1)` where `n` is the number of address mappings made
so far, and the substitution is recorded in both maps. -/
theorem invalid_address_handling (st : AnonymizationManager) (s : String)
    (hm : lookup st.ip_mappings s = none) :
    (shapedIPv4 s = false → parseIPv4 s = none → isValidIPv6 s = false →
      st.anonymize_single_ip s = (s, st)) ∧
    (shapedIPv4 s = true → parseIPv4 s = none →
      st.anonymize_single_ip s =
        ("10.0.0." ++ natToDecS (st.ip_mappings.length % 254 + 1),
         { st with
           ip_mappings := store st.ip_mappings s
             ("10.0.0." ++ natToDecS (st.ip_mappings.length % 254 + 1))
           reverse_mappings := store st.reverse_mappings
             ("10.0.0." ++ natToDecS (st.ip_mappings.length % 254 + 1))
             s })) := by
  constructor
  · intro hsh hp h6
    by_cases hs : s = ""
    · subst hs
      simp [AnonymizationManager.anonymize_single_ip, hm]
    · simp [AnonymizationManager.anonymize_single_ip, hs, hm, hp, h6, hsh]
  · intro hsh hp
    have hs : ¬(s = "") := by
      rintro rfl
      have : shapedIPv4 "" = false := by decide
      rw [this] at hsh
      cases hsh
    have h6 : isValidIPv6 s = false := shaped_not_ipv6 hsh
    simp [AnonymizationManager.anonymize_single_ip, hs, hm, hp, h6, hsh]

/-- Witness for `invalid_address_handling` at the non-address `server01`
and the IPv4-shaped but invalid `1.2.3.999`. -/
theorem invalid_address_handling_witness :
    (AnonymizationManager.init "").anonymize_single_ip "server01" =
      ("server01", AnonymizationManager.init "") ∧
    ((AnonymizationManager.init "").anonymize_single_ip "1.2.3.999").1 =
      "10.0.0.1" :=
  ⟨(invalid_address_handling (AnonymizationManager.init "") "server01"
      rfl).1 (by decide) (by decide) (by decide),
   by
    rw [(invalid_address_handling (AnonymizationManager.init "")
      "1.2.3.999" rfl).2 (by decide) (by decide)]
    decide⟩

/-! ### Claim C5: idempotence machinery -/

open AnonymizationManager in
/-- Case analysis of the single-address transform: a memoised hit, a fresh
insertion, or an inert pass-through (whose behaviour depends only on the
value). -/
theorem single_ip_cases (st : AnonymizationManager) (q : String) :
    (∃ r, lookup st.ip_mappings q = some r ∧
      st.anonymize_single_ip q = (r, st)) ∨
    (lookup st.ip_mappings q = none ∧ q ≠ "" ∧
      (st.anonymize_single_ip q).2.ip_mappings =
        store st.ip_mappings q (st.anonymize_single_ip q).1) ∨
    (lookup st.ip_mappings q = none ∧
      st.anonymize_single_ip q = (q, st) ∧
      (∀ stX : AnonymizationManager, lookup stX.ip_mappings q = none →
        stX.anonymize_single_ip q = (q, stX))) := by
  by_cases hq : q = ""
  · subst hq
    cases hl : lookup st.ip_mappings "" with
    | some r =>
      exact Or.inl ⟨r, rfl, by simp [anonymize_single_ip, hl]⟩
    | none =>
      refine Or.inr (Or.inr ⟨rfl, by simp [anonymize_single_ip, hl], ?_⟩)
      intro stX hlX
      simp [anonymize_single_ip, hlX]
  · cases hl : lookup st.ip_mappings q with
    | some r =>
      exact Or.inl ⟨r, rfl, by simp [anonymize_single_ip, hq, hl]⟩
    | none =>
      cases hp : parseIPv4 q with
      | some quad =>
        obtain ⟨a, b, c, d⟩ := quad
        refine Or.inr (Or.inl ⟨rfl, hq, ?_⟩)
        rw [single_ip_valid st q hp hl]
      | none =>
        by_cases h6 : isValidIPv6 q
        · refine Or.inr (Or.inl ⟨rfl, hq, ?_⟩)
          simp [anonymize_single_ip, hq, hl, hp, h6]
        · by_cases hsh : shapedIPv4 q
          · refine Or.inr (Or.inl ⟨rfl, hq, ?_⟩)
            simp [anonymize_single_ip, hq, hl, hp, h6, hsh]
          · refine Or.inr (Or.inr ⟨rfl,
              by simp [anonymize_single_ip, hq, hl, hp, h6, hsh], ?_⟩)
            intro stX hlX
            simp [anonymize_single_ip, hq, hlX, hp, h6, hsh]

/-- The single-address transform only adds bindings: existing lookups are
preserved. -/
theorem single_preserves_lookup (st : AnonymizationManager) (q k r : String)
    (h : lookup st.ip_mappings k = some r) :
    lookup (st.anonymize_single_ip q).2.ip_mappings k = some r := by
  rcases single_ip_cases st q with ⟨r', hl, heq⟩ | ⟨hl, hq, hst⟩ |
    ⟨hl, heq, _⟩
  · rw [heq]; exact h
  · rw [hst, lookup_store]
    have : ¬(q = k) := by
      rintro rfl
      rw [hl] at h
      cases h
    rw [if_neg this]
    exact h
  · rw [heq]; exact h

/-- The ip dictionary after the single-address transform is either
unchanged or extended with the processed value. -/
theorem single_ip_state (st : AnonymizationManager) (q : String) :
    (st.anonymize_single_ip q).2.ip_mappings = st.ip_mappings ∨
    ((st.anonymize_single_ip q).2.ip_mappings =
      store st.ip_mappings q (st.anonymize_single_ip q).1 ∧
      lookup st.ip_mappings q = none) := by
  rcases single_ip_cases st q with ⟨r', hl, heq⟩ | ⟨hl, hq, hst⟩ |
    ⟨hl, heq, _⟩
  · rw [heq]; exact Or.inl rfl
  · exact Or.inr ⟨hst, hl⟩
  · rw [heq]; exact Or.inl rfl

/-- The multi-value loop preserves existing lookups. -/
theorem ipList_preserves_lookup (ps : List String)
    (st : AnonymizationManager) (k r : String)
    (h : lookup st.ip_mappings k = some r) :
    lookup (anonymizeIPList st ps).2.ip_mappings k = some r := by
  induction ps generalizing st with
  | nil => exact h
  | cons p rest ih =>
    simp only [anonymizeIPList]
    exact ih _ (single_preserves_lookup st p k r h)

/-- An inert value stays unmapped through the multi-value loop. -/
theorem ipList_preserves_inert (ps : List String)
    (st : AnonymizationManager) (q : String)
    (hinert : ∀ stX : AnonymizationManager,
      lookup stX.ip_mappings q = none → stX.anonymize_single_ip q = (q, stX))
    (h : lookup st.ip_mappings q = none) :
    lookup (anonymizeIPList st ps).2.ip_mappings q = none := by
  induction ps generalizing st with
  | nil => exact h
  | cons p rest ih =>
    simp only [anonymizeIPList]
    refine ih _ ?_
    by_cases hpq : p = q
    · subst hpq
      rw [hinert st h]
      exact h
    · rcases single_ip_state st p with hst | ⟨hst, _⟩
      · rw [hst]; exact h
      · rw [hst, lookup_store, if_neg hpq]; exact h

/-- Running the single-address transform twice returns the same value and
leaves the second state equal to the first. -/
theorem single_ip_idem (st : AnonymizationManager) (q : String) :
    (st.anonymize_single_ip q).2.anonymize_single_ip q =
      ((st.anonymize_single_ip q).1, (st.anonymize_single_ip q).2) := by
  rcases single_ip_cases st q with ⟨r', hl, heq⟩ | ⟨hl, hq, hst⟩ |
    ⟨hl, heq, hinert⟩
  · rw [heq, heq]
  · apply single_ip_memo
    rw [hst, lookup_store, if_pos rfl]
  · rw [heq]
    exact hinert st hl

/-- Re-running the multi-value loop from its own final state reproduces
the results without further state change. -/
theorem ipList_idem (ps : List String) (st : AnonymizationManager) :
    anonymizeIPList (anonymizeIPList st ps).2 ps =
      ((anonymizeIPList st ps).1, (anonymizeIPList st ps).2) := by
  induction ps generalizing st with
  | nil => rfl
  | cons p rest ih =>
    have htr : (anonymizeIPList (st.anonymize_single_ip p).2 rest).2.anonymize_single_ip p =
        ((st.anonymize_single_ip p).1,
          (anonymizeIPList (st.anonymize_single_ip p).2 rest).2) := by
      rcases single_ip_cases st p with ⟨r', hl, heq⟩ | ⟨hl, hq, hst⟩ |
        ⟨hl, heq, hinert⟩
      · rw [heq]
        apply single_ip_memo
        exact ipList_preserves_lookup rest st p r' hl
      · rw [show (st.anonymize_single_ip p).1 =
          ((st.anonymize_single_ip p).1, (st.anonymize_single_ip p).2).1
          from rfl]
        apply single_ip_memo
        refine ipList_preserves_lookup rest _ p _ ?_
        rw [hst, lookup_store, if_pos rfl]
      · rw [heq]
        apply hinert
        refine ipList_preserves_inert rest _ p hinert ?_
        exact hl
    simp only [anonymizeIPList]
    rw [htr, ih]

/-- Running `anonymize_ip_address` twice returns the same value. -/
theorem ip_address_idem (st : AnonymizationManager) (v : String) :
    ((st.anonymize_ip_address v).2.anonymize_ip_address v).1 =
      (st.anonymize_ip_address v).1 := by
  by_cases hstrip : pyStripS v = ""
  · simp [AnonymizationManager.anonymize_ip_address, hstrip]
  · by_cases hc : (hasChar (pyStripS v) ',' = true) ∨
      (hasChar (pyStripS v) ';' = true)
    · simp only [AnonymizationManager.anonymize_ip_address, hstrip,
        if_false, if_pos hc]
      rw [ipList_idem]
    · simp only [AnonymizationManager.anonymize_ip_address, hstrip,
        if_false, if_neg hc]
      rw [single_ip_idem]

open AnonymizationManager in
theorem vm_name_idem (st : AnonymizationManager) (v : String)
    (vmId : Option String) (count : Bool) :
    ((st.anonymize_vm_name_with_id v vmId count).2.anonymize_vm_name_with_id
      v vmId count).1 = (st.anonymize_vm_name_with_id v vmId count).1 := by
  by_cases hv : v = ""
  · simp [anonymize_vm_name_with_id, hv]
  · cases hl : lookup st.name_mappings v with
    | some p => simp [anonymize_vm_name_with_id, hv, hl]
    | none =>
      cases vmId with
      | none =>
        by_cases hcv : count <;>
          simp [anonymize_vm_name_with_id, hv, hl, hcv, lookup_store]
      | some vid =>
        by_cases hvid : vid = "" <;> by_cases hcv : count <;>
          simp [anonymize_vm_name_with_id, hv, hl, hvid, hcv, lookup_store]

open AnonymizationManager in
theorem host_name_idem (st : AnonymizationManager) (v : String)
    (count : Bool) :
    ((st.anonymize_host_name v count).2.anonymize_host_name v count).1 =
      (st.anonymize_host_name v count).1 := by
  by_cases hv : v = ""
  · simp [anonymize_host_name, hv]
  · cases hl : lookup st.name_mappings v with
    | some p => simp [anonymize_host_name, hv, hl]
    | none =>
      by_cases hcv : count <;>
        simp [anonymize_host_name, hv, hl, hcv, lookup_store]

open AnonymizationManager in
theorem cluster_name_idem (st : AnonymizationManager) (v : String) :
    ((st.anonymize_cluster_name v).2.anonymize_cluster_name v).1 =
      (st.anonymize_cluster_name v).1 := by
  by_cases hv : v = ""
  · simp [anonymize_cluster_name, hv]
  · cases hl : lookup st.name_mappings v with
    | some p => simp [anonymize_cluster_name, hv, hl]
    | none => simp [anonymize_cluster_name, hv, hl, lookup_store]

open AnonymizationManager in
theorem datacenter_name_idem (st : AnonymizationManager) (v : String) :
    ((st.anonymize_datacenter_name v).2.anonymize_datacenter_name v).1 =
      (st.anonymize_datacenter_name v).1 := by
  by_cases hv : v = ""
  · simp [anonymize_datacenter_name, hv]
  · cases hl : lookup st.name_mappings v with
    | some p => simp [anonymize_datacenter_name, hv, hl]
    | none => simp [anonymize_datacenter_name, hv, hl, lookup_store]

open AnonymizationManager in
theorem generic_field_idem (st : AnonymizationManager) (v ft : String) :
    ((st.anonymize_generic_field v ft).2.anonymize_generic_field v ft).1 =
      (st.anonymize_generic_field v ft).1 := by
  by_cases hv : v = ""
  · simp [anonymize_generic_field, hv]
  · cases hl : lookup st.name_mappings v with
    | some p => simp [anonymize_generic_field, hv, hl]
    | none => simp [anonymize_generic_field, hv, hl, lookup_store]

/-! ### Claim C5 -/

/-- C5: for every original value anonymized twice within the same run
under the same category (VM/host/cluster/datacenter/generic name, IP
address, MAC address, or UUID), both invocations return the identical
anonymized output: the name and address categories look the first result
up in the forward map, and the hash-based MAC/UUID transforms recompute
it deterministically. -/
theorem anonymize_twice_consistent (call : AnonCall)
    (st : AnonymizationManager) (v : String) :
    (applyCall call (applyCall call st v).2 v).1 =
      (applyCall call st v).1 := by
  cases call with
  | vmName vmId count => exact vm_name_idem st v vmId count
  | hostName count => exact host_name_idem st v count
  | clusterName => exact cluster_name_idem st v
  | datacenterName => exact datacenter_name_idem st v
  | genericField ft => exact generic_field_idem st v ft
  | ipAddr => exact ip_address_idem st v
  | macAddr => rfl
  | uuid => rfl

/-- Witness for `anonymize_twice_consistent`: anonymizing the host name
`esx1` twice yields `HOST-0001` both times. -/
theorem anonymize_twice_consistent_witness :
    (applyCall (.hostName true)
      (applyCall (.hostName true) (AnonymizationManager.init "") "esx1").2
      "esx1").1 = (applyCall (.hostName true)
        (AnonymizationManager.init "") "esx1").1 ∧
    (applyCall (.hostName true) (AnonymizationManager.init "") "esx1").1 =
      "HOST-0001" :=
  ⟨anonymize_twice_consistent (.hostName true)
    (AnonymizationManager.init "") "esx1", by decide⟩

/-! ### Claim C6 -/

/-- C6, counterexample.  Three ways the claim fails on the code: the
generic category keeps no counter at all — its first pseudonym in a fresh
run carries the suffix `0000` (the current size of the shared name map),
not `0001`; a newly seen VM name anonymized through a usable VM ID leaves
the VM counter untouched at 1; and a value newly seen in the cluster
category but already present in the shared name map (here from the host
category) leaves the cluster counter untouched. -/
theorem generic_counter_starts_at_zero :
    ((AnonymizationManager.init "").anonymize_generic_field "a" "PATH").1 =
      "PATH-0000" ∧
    "PATH-0000" ≠ "PATH-0001" ∧
    ((AnonymizationManager.init "").anonymize_vm_name_with_id "web01"
      (some "vm-1042") true).2.vm_counter = 1 ∧
    ((AnonymizationManager.init "").anonymize_vm_name_with_id "web01"
      (some "vm-1042") true).1 = "vm-1042" ∧
    (((AnonymizationManager.init "").anonymize_host_name "foo"
      true).2.anonymize_cluster_name "foo").2.cluster_counter = 1 := by
  decide

/-- C6 (amended): the VM, host, cluster and datacenter counters start
at 1; the host, cluster and datacenter counters are incremented exactly
when their category anonymizes a nonempty value absent from the shared
name map, the VM counter only when additionally no usable VM ID is
supplied, and no other call touches any counter; the generic category
keeps no counter — its pseudonym suffix is the current size of the shared
name map, starting at 0 in a fresh run. -/
theorem counter_semantics :
    ((AnonymizationManager.init "").vm_counter = 1 ∧
     (AnonymizationManager.init "").host_counter = 1 ∧
     (AnonymizationManager.init "").cluster_counter = 1 ∧
     (AnonymizationManager.init "").datacenter_counter = 1 ∧
     (AnonymizationManager.init "").name_mappings.length = 0) ∧
    (∀ (st : AnonymizationManager) (v : String) (call : AnonCall),
      ((applyCall call st v).2.vm_counter,
       (applyCall call st v).2.host_counter,
       (applyCall call st v).2.cluster_counter,
       (applyCall call st v).2.datacenter_counter) =
      (match call with
       | .vmName vmId _ =>
         if v ≠ "" ∧ lookup st.name_mappings v = none ∧
             (vmId = none ∨ vmId = some "") then
           (st.vm_counter + 1, st.host_counter, st.cluster_counter,
            st.datacenter_counter)
         else
           (st.vm_counter, st.host_counter, st.cluster_counter,
            st.datacenter_counter)
       | .hostName _ =>
         if v ≠ "" ∧ lookup st.name_mappings v = none then
           (st.vm_counter, st.host_counter + 1, st.cluster_counter,
            st.datacenter_counter)
         else
           (st.vm_counter, st.host_counter, st.cluster_counter,
            st.datacenter_counter)
       | .clusterName =>
         if v ≠ "" ∧ lookup st.name_mappings v = none then
           (st.vm_counter, st.host_counter, st.cluster_counter + 1,
            st.datacenter_counter)
         else
           (st.vm_counter, st.host_counter, st.cluster_counter,
            st.datacenter_counter)
       | .datacenterName =>
         if v ≠ "" ∧ lookup st.name_mappings v = none then
           (st.vm_counter, st.host_counter, st.cluster_counter,
            st.datacenter_counter + 1)
         else
           (st.vm_counter, st.host_counter, st.cluster_counter,
            st.datacenter_counter)
       | _ =>
         (st.vm_counter, st.host_counter, st.cluster_counter,
          st.datacenter_counter))) ∧
    (∀ (st : AnonymizationManager) (v ft : String), v ≠ "" →
      lookup st.name_mappings v = none →
      (st.anonymize_generic_field v ft).1 =
        ft ++ "-" ++ pad4S st.name_mappings.length) := by
  refine ⟨by decide, ?_, ?_⟩
  · intro st v call
    cases call with
    | vmName vmId count =>
      by_cases hv : v = ""
      · simp [applyCall, AnonymizationManager.anonymize_vm_name_with_id, hv]
      · cases hl : lookup st.name_mappings v with
        | some p =>
          simp [applyCall, AnonymizationManager.anonymize_vm_name_with_id,
            hv, hl]
        | none =>
          cases vmId with
          | none =>
            by_cases hcv : count <;>
              simp [applyCall,
                AnonymizationManager.anonymize_vm_name_with_id, hv, hl, hcv]
          | some vid =>
            by_cases hvid : vid = "" <;> by_cases hcv : count <;>
              simp [applyCall,
                AnonymizationManager.anonymize_vm_name_with_id, hv, hl,
                hvid, hcv]
    | hostName count =>
      by_cases hv : v = ""
      · simp [applyCall, AnonymizationManager.anonymize_host_name, hv]
      · cases hl : lookup st.name_mappings v with
        | some p =>
          simp [applyCall, AnonymizationManager.anonymize_host_name, hv, hl]
        | none =>
          by_cases hcv : count <;>
            simp [applyCall, AnonymizationManager.anonymize_host_name, hv,
              hl, hcv]
    | clusterName =>
      by_cases hv : v = ""
      · simp [applyCall, AnonymizationManager.anonymize_cluster_name, hv]
      · cases hl : lookup st.name_mappings v with
        | some p =>
          simp [applyCall, AnonymizationManager.anonymize_cluster_name,
            hv, hl]
        | none =>
          simp [applyCall, AnonymizationManager.anonymize_cluster_name,
            hv, hl]
    | datacenterName =>
      by_cases hv : v = ""
      · simp [applyCall, AnonymizationManager.anonymize_datacenter_name, hv]
      · cases hl : lookup st.name_mappings v with
        | some p =>
          simp [applyCall, AnonymizationManager.anonymize_datacenter_name,
            hv, hl]
        | none =>
          simp [applyCall, AnonymizationManager.anonymize_datacenter_name,
            hv, hl]
    | genericField ft =>
      by_cases hv : v = ""
      · simp [applyCall, AnonymizationManager.anonymize_generic_field, hv]
      · cases hl : lookup st.name_mappings v with
        | some p =>
          simp [applyCall, AnonymizationManager.anonymize_generic_field,
            hv, hl]
        | none =>
          simp [applyCall, AnonymizationManager.anonymize_generic_field,
            hv, hl]
    | ipAddr =>
      by_cases hstrip : pyStripS v = ""
      · simp [applyCall, AnonymizationManager.anonymize_ip_address, hstrip]
      · by_cases hcm : (hasChar (pyStripS v) ',' = true) ∨
          (hasChar (pyStripS v) ';' = true)
        · simp only [applyCall, AnonymizationManager.anonymize_ip_address,
            hstrip, if_false, if_pos hcm]
          generalize (splitChars (if hasChar (pyStripS v) ',' then ','
            else ';') (chars (pyStripS v))).map
            (fun p => strOf (pyStrip p)) = ips
          induction ips generalizing st with
          | nil => rfl
          | cons p rest ihp =>
            simp only [anonymizeIPList]
            rw [ihp]
            rcases single_ip_cases st p with ⟨r', _, heq⟩ | ⟨hl, hq, _⟩ |
              ⟨_, heq, _⟩
            · rw [heq]
            · rcases hps : parseIPv4 p with _ | quad
              · by_cases h6 : isValidIPv6 p
                · simp [AnonymizationManager.anonymize_single_ip, hq, hl,
                    hps, h6]
                · by_cases hsh : shapedIPv4 p <;>
                    simp [AnonymizationManager.anonymize_single_ip, hq,
                      hl, hps, h6, hsh]
              · obtain ⟨a, b, c, d⟩ := quad
                rw [single_ip_valid st p hps hl]
            · rw [heq]
        · simp only [applyCall, AnonymizationManager.anonymize_ip_address,
            hstrip, if_false, if_neg hcm]
          rcases single_ip_cases st (pyStripS v) with ⟨r', _, heq⟩ |
            ⟨hl, hq, _⟩ | ⟨_, heq, _⟩
          · rw [heq]
          · rcases hps : parseIPv4 (pyStripS v) with _ | quad
            · by_cases h6 : isValidIPv6 (pyStripS v)
              · simp [AnonymizationManager.anonymize_single_ip, hq, hl,
                  hps, h6]
              · by_cases hsh : shapedIPv4 (pyStripS v) <;>
                  simp [AnonymizationManager.anonymize_single_ip, hq, hl,
                    hps, h6, hsh]
            · obtain ⟨a, b, c, d⟩ := quad
              rw [single_ip_valid st (pyStripS v) hps hl]
          · rw [heq]
    | macAddr => rfl
    | uuid => rfl
  · intro st v ft hv hl
    simp [AnonymizationManager.anonymize_generic_field, hv, hl]

/-- Witness for `counter_semantics`: the host call on a fresh value
increments only the host counter, and the first generic pseudonym of a
fresh run is numbered 0. -/
theorem counter_semantics_witness :
    ((AnonymizationManager.init "").anonymize_generic_field "a" "PATH").1 =
      "PATH" ++ "-" ++
        pad4S (AnonymizationManager.init "").name_mappings.length ∧
    ((applyCall (.hostName true) (AnonymizationManager.init "")
        "esx1").2.vm_counter,
     (applyCall (.hostName true) (AnonymizationManager.init "")
        "esx1").2.host_counter,
     (applyCall (.hostName true) (AnonymizationManager.init "")
        "esx1").2.cluster_counter,
     (applyCall (.hostName true) (AnonymizationManager.init "")
        "esx1").2.datacenter_counter) = (1, 2, 1, 1) := by
  refine ⟨counter_semantics.2.2 (AnonymizationManager.init "") "a" "PATH"
    (by decide) rfl, ?_⟩
  rw [counter_semantics.2.1 (AnonymizationManager.init "") "esx1"
    (.hostName true)]
  decide

/-! ### Claim C10 -/

theorem processSheet_name (st : AnonymizationManager) (s : Sheet) :
    (processSheet st s).1.name = s.name := by
  rcases s with ⟨n, rows⟩
  rcases rows with _ | ⟨h, t⟩
  · rfl
  · rcases t with _ | ⟨r2, t2⟩ <;> rfl

theorem processSheet_head (st : AnonymizationManager) (s : Sheet) :
    (processSheet st s).1.rows.head? = s.rows.head? := by
  rcases s with ⟨n, rows⟩
  rcases rows with _ | ⟨h, t⟩
  · rfl
  · rcases t with _ | ⟨r2, t2⟩ <;> rfl

theorem updateSheetNamed_name (st : AnonymizationManager) (n : String)
    (sheets : List Sheet) (i : Nat) :
    ((updateSheetNamed st n sheets).1[i]?).map Sheet.name =
      (sheets[i]?).map Sheet.name := by
  induction sheets generalizing st i with
  | nil => rfl
  | cons s rest ih =>
    rw [updateSheetNamed]
    by_cases hn : s.name = n
    · simp only [hn, if_true]
      cases i with
      | zero => simp [processSheet_name]
      | succ j => simp
    · simp only [hn, if_false]
      cases i with
      | zero => simp
      | succ j => simpa using ih st j

theorem updateSheetNamed_head (st : AnonymizationManager) (n : String)
    (sheets : List Sheet) (i : Nat) :
    ((updateSheetNamed st n sheets).1[i]?).map (fun s => s.rows.head?) =
      (sheets[i]?).map (fun s => s.rows.head?) := by
  induction sheets generalizing st i with
  | nil => rfl
  | cons s rest ih =>
    rw [updateSheetNamed]
    by_cases hn : s.name = n
    · simp only [hn, if_true]
      cases i with
      | zero => simp [processSheet_head]
      | succ j => simp
    · simp only [hn, if_false]
      cases i with
      | zero => simp
      | succ j => simpa using ih st j

theorem runSheets_head (names : List String)
    (p : List Sheet × AnonymizationManager) (i : Nat) :
    ((runSheets p names).1[i]?).map (fun s => s.rows.head?) =
      (p.1[i]?).map (fun s => s.rows.head?) := by
  induction names generalizing p with
  | nil => rfl
  | cons n rest ih =>
    rw [runSheets]
    rw [ih]
    exact updateSheetNamed_head p.2 n p.1 i

theorem deanonSheet_head (rev : List (String × String)) (s : Sheet) :
    (deanonSheet rev s).rows.head? = s.rows.head? := by
  rcases s with ⟨n, rows⟩
  rcases rows with _ | ⟨h, t⟩
  · rfl
  · rcases t with _ | ⟨r2, t2⟩ <;> rfl

theorem deanonSheet_cell (rev : List (String × String)) (s : Sheet)
    (ri ci : Nat) (c : String)
    (hc : s.rows[ri]?.bind (fun row => row[ci]?) = some c)
    (hl : lookup rev c = none) :
    (deanonSheet rev s).rows[ri]?.bind (fun row => row[ci]?) = some c := by
  rw [Option.bind_eq_some] at hc
  obtain ⟨row, hrow, hcell⟩ := hc
  rw [Option.bind_eq_some]
  rcases s with ⟨n, rows⟩
  rcases rows with _ | ⟨hd, t⟩
  · simp at hrow
  · rcases t with _ | ⟨r2, t2⟩
    · exact ⟨row, hrow, hcell⟩
    · cases ri with
      | zero =>
        have hh : hd = row := by simpa using hrow
        subst hh
        exact ⟨hd, by simp [deanonSheet], hcell⟩
      | succ rj =>
        simp only [List.getElem?_cons_succ] at hrow
        refine ⟨row.map (deanonCell rev), ?_, ?_⟩
        · simp only [deanonSheet, List.getElem?_cons_succ,
            List.getElem?_map, hrow, Option.map_some]
          rfl
        · rw [List.getElem?_map, hcell]
          simp [deanonCell, hl]

/-- C10: the anonymization pass and the deanonymization pass leave the
header row of every sheet unchanged (cell processing starts at row 2),
and the deanonymization pass leaves every cell whose value is not a key
of the supplied reverse map unchanged. -/
theorem header_and_unmapped_cells_preserved (wb : List Sheet)
    (sfx : String) (rev : List (String × String)) :
    (∀ si : Nat, ((anonymizeWorkbook wb sfx).1[si]?).map
        (fun s : Sheet => s.rows.head?) =
      (wb[si]?).map (fun s : Sheet => s.rows.head?)) ∧
    (∀ si : Nat, ((deanonymizeWorkbook rev wb)[si]?).map
        (fun s : Sheet => s.rows.head?) =
      (wb[si]?).map (fun s : Sheet => s.rows.head?)) ∧
    (∀ (si ri ci : Nat) (c : String),
      getCell wb si ri ci = some c → lookup rev c = none →
      getCell (deanonymizeWorkbook rev wb) si ri ci = some c) := by
  refine ⟨fun si => runSheets_head (sheetOrder wb) (wb, .init sfx) si,
    fun si => ?_, fun si ri ci c hc hl => ?_⟩
  · rw [deanonymizeWorkbook, List.getElem?_map]
    cases wb[si]? with
    | none => rfl
    | some s => simp [deanonSheet_head]
  · rw [getCell] at hc
    rw [Option.bind_eq_some] at hc
    obtain ⟨rows, h1, h2⟩ := hc
    rw [Option.map_eq_some'] at h1
    obtain ⟨s, hs, hrows⟩ := h1
    subst hrows
    rw [getCell, deanonymizeWorkbook, List.getElem?_map, hs]
    exact deanonSheet_cell rev s ri ci c h2 hl

/-- Witness for `header_and_unmapped_cells_preserved` on a one-sheet
workbook. -/
theorem header_and_unmapped_cells_preserved_witness :
    getCell (deanonymizeWorkbook [("HOST-0001", "esx1")]
      [⟨"vHost", [["Host"], ["web01"]]⟩]) 0 1 0 = some "web01" :=
  (header_and_unmapped_cells_preserved
    [⟨"vHost", [["Host"], ["web01"]]⟩] ""
    [("HOST-0001", "esx1")]).2.2 0 1 0 "web01" (by decide) (by decide)

/-! ### Claim C9 -/

set_option maxRecDepth 40000 in
/-- C9, counterexample.  A redaction can be undone by deanonymization:
when a row's VM ID is literally `ANONYMIZED_TEXT`, the VM-name branch
records the reverse entry `ANONYMIZED_TEXT -> web01`, and the blind
deanonymization pass then rewrites the redacted Annotation cell to
`web01`, so the substitution is undone (to an unrelated value). -/
theorem redaction_undone_by_vm_id_collision :
    getCell (anonymizeWorkbook [⟨"vInfo", [["VM", "VM ID", "Annotation"],
      ["web01", "ANONYMIZED_TEXT", "secret note"]]⟩] "").1 0 1 2 =
      some "ANONYMIZED_TEXT" ∧
    getCell (deanonymizeWorkbook
      (anonymizeWorkbook [⟨"vInfo", [["VM", "VM ID", "Annotation"],
        ["web01", "ANONYMIZED_TEXT", "secret note"]]⟩] "").2.reverse_mappings
      (anonymizeWorkbook [⟨"vInfo", [["VM", "VM ID", "Annotation"],
        ["web01", "ANONYMIZED_TEXT", "secret note"]]⟩] "").1) 0 1 2 =
      some "web01" ∧
    "web01" ≠ "ANONYMIZED_TEXT" := by
  decide

/-- C9 (amended): every nonempty cell under an Annotation/Notes/
Description/Message header is replaced by the constant
`ANONYMIZED_TEXT`, and under License Key/Serial Number by
`ANONYMIZED_LICENSE`, with the manager state unchanged (no entry added to
any forward or reverse mapping by these branches); the substitutions are
left alone by deanonymization provided the constant is not a key of the
reverse map (another branch, e.g. a VM ID equal to the constant, can
record such a key and undo them). -/
theorem redaction_constants :
    (∀ (st : AnonymizationManager) (sheetName header : String)
      (vmId : Option String) (v : String),
      header ∈ ["Annotation", "Notes", "Description", "Message"] →
      pyStripS v ≠ "" →
      processCell st sheetName header vmId v = ("ANONYMIZED_TEXT", st)) ∧
    (∀ (st : AnonymizationManager) (sheetName header : String)
      (vmId : Option String) (v : String),
      header ∈ ["License Key", "Serial Number"] →
      pyStripS v ≠ "" →
      processCell st sheetName header vmId v = ("ANONYMIZED_LICENSE", st)) ∧
    (∀ rev : List (String × String), lookup rev "ANONYMIZED_TEXT" = none →
      deanonCell rev "ANONYMIZED_TEXT" = "ANONYMIZED_TEXT") ∧
    (∀ rev : List (String × String),
      lookup rev "ANONYMIZED_LICENSE" = none →
      deanonCell rev "ANONYMIZED_LICENSE" = "ANONYMIZED_LICENSE") := by
  refine ⟨?_, ?_, ?_, ?_⟩
  · intro st sheetName header vmId v hh hv
    fin_cases hh <;> simp [processCell, hv]
  · intro st sheetName header vmId v hh hv
    fin_cases hh <;> simp [processCell, hv]
  · intro rev hl
    simp [deanonCell, hl]
  · intro rev hl
    simp [deanonCell, hl]

/-- Witness for `redaction_constants` on an Annotation cell and a License
Key cell. -/
theorem redaction_constants_witness :
    processCell (AnonymizationManager.init "") "vInfo" "Annotation" none
      "secret note" = ("ANONYMIZED_TEXT", AnonymizationManager.init "") ∧
    processCell (AnonymizationManager.init "") "vHost" "License Key" none
      "ABC-123" = ("ANONYMIZED_LICENSE", AnonymizationManager.init "") ∧
    deanonCell [("HOST-0001", "esx1")] "ANONYMIZED_TEXT" =
      "ANONYMIZED_TEXT" :=
  ⟨redaction_constants.1 (AnonymizationManager.init "") "vInfo"
      "Annotation" none "secret note" (by decide) (by decide),
   redaction_constants.2.1 (AnonymizationManager.init "") "vHost"
      "License Key" none "ABC-123" (by decide) (by decide),
   redaction_constants.2.2.1 [("HOST-0001", "esx1")] (by decide)⟩

/-! ### Claim C1: round-trip machinery -/

theorem lookup_mem {m : List (String × String)} {k r : String}
    (h : lookup m k = some r) : (k, r) ∈ m := by
  rw [lookup] at h
  cases hf : m.find? (fun p => p.1 = k) with
  | none => rw [hf] at h; cases h
  | some pr =>
    rw [hf] at h
    have hm := List.mem_of_find?_eq_some hf
    have hk := List.find?_some hf
    simp only [decide_eq_true_eq] at hk
    have h2 : pr.2 = r := by simpa using h
    have hpr : pr = (k, r) := by
      rcases pr with ⟨k', r'⟩
      simp only at hk h2
      rw [hk, h2]
    rw [hpr] at hm
    exact hm

theorem lookup_of_nodup {m : List (String × String)} {k r : String}
    (hn : (m.map Prod.fst).Nodup) (hm : (k, r) ∈ m) :
    lookup m k = some r := by
  induction m with
  | nil => cases hm
  | cons pr rest ih =>
    rcases List.mem_cons.mp hm with rfl | hm2
    · rw [lookup, List.find?_cons]
      simp
    · have hk : pr.1 ≠ k := by
        intro he
        have : k ∈ rest.map Prod.fst :=
          List.mem_map.mpr ⟨(k, r), hm2, rfl⟩
        rw [List.map_cons, List.nodup_cons] at hn
        exact hn.1 (he ▸ this)
      rw [lookup, List.find?]
      have : (decide (pr.1 = k)) = false := by
        simp only [decide_eq_false_iff_not]
        exact hk
      rw [this]
      rw [List.map_cons, List.nodup_cons] at hn
      exact ih hn.2 hm2

theorem suffix_store (m : List (String × String)) (k v : String) :
    m <:+ store m k v := ⟨[(k, v)], rfl⟩

theorem CellOK_mono {rev rev' : List (String × String)} {a b : String}
    (h : CellOK rev a b) (hs : rev <:+ rev') : CellOK rev' a b := by
  rcases h with rfl | ⟨hm, hne⟩
  · exact Or.inl rfl
  · exact Or.inr ⟨hs.subset hm, hne⟩

theorem CellOK_refl (rev : List (String × String)) (a : String) :
    CellOK rev a a := Or.inl rfl

theorem data_ne_of_ne {s : String} (h : s ≠ "") : s.data ≠ [] := by
  intro hd
  exact h (String.ext hd)

theorem append_ne_left {a : String} (h : a.data ≠ []) (b : String) :
    a ++ b ≠ "" := by
  apply ne_empty_of_data
  rw [String.data_append]
  cases hd : a.data with
  | nil => exact absurd hd h
  | cons c cs => simp [hd]

theorem MgrInv_init (sfx : String) : MgrInv (.init sfx) := by
  constructor
  · intro pr hpr; cases hpr
  · intro pr hpr; cases hpr

theorem MgrInv_record_name {st st' : AnonymizationManager} (v anon : String)
    (hinv : MgrInv st) (hne : anon ≠ "")
    (hname : st'.name_mappings = store st.name_mappings v anon)
    (hip : st'.ip_mappings = st.ip_mappings)
    (hrev : st'.reverse_mappings = store st.reverse_mappings anon v) :
    MgrInv st' := by
  constructor
  · intro pr hpr
    rw [hname, store] at hpr
    rw [hrev, store]
    rcases List.mem_cons.mp hpr with rfl | hpr2
    · exact ⟨by simp, hne⟩
    · obtain ⟨hm, hn⟩ := hinv.1 pr hpr2
      exact ⟨by simp [hm], hn⟩
  · intro pr hpr
    rw [hip] at hpr
    rw [hrev, store]
    obtain ⟨hm, hn⟩ := hinv.2 pr hpr
    exact ⟨by simp [hm], hn⟩

theorem MgrInv_record_ip {st st' : AnonymizationManager} (v anon : String)
    (hinv : MgrInv st) (hne : anon ≠ "")
    (hname : st'.name_mappings = st.name_mappings)
    (hip : st'.ip_mappings = store st.ip_mappings v anon)
    (hrev : st'.reverse_mappings = store st.reverse_mappings anon v) :
    MgrInv st' := by
  constructor
  · intro pr hpr
    rw [hname] at hpr
    rw [hrev, store]
    obtain ⟨hm, hn⟩ := hinv.1 pr hpr
    exact ⟨by simp [hm], hn⟩
  · intro pr hpr
    rw [hip, store] at hpr
    rw [hrev, store]
    rcases List.mem_cons.mp hpr with rfl | hpr2
    · exact ⟨by simp, hne⟩
    · obtain ⟨hm, hn⟩ := hinv.2 pr hpr2
      exact ⟨by simp [hm], hn⟩

theorem MgrInv_record_rev {st st' : AnonymizationManager} (v anon : String)
    (hinv : MgrInv st)
    (hname : st'.name_mappings = st.name_mappings)
    (hip : st'.ip_mappings = st.ip_mappings)
    (hrev : st'.reverse_mappings = store st.reverse_mappings anon v) :
    MgrInv st' := by
  constructor
  · intro pr hpr
    rw [hname] at hpr
    rw [hrev, store]
    obtain ⟨hm, hn⟩ := hinv.1 pr hpr
    exact ⟨by simp [hm], hn⟩
  · intro pr hpr
    rw [hip] at hpr
    rw [hrev, store]
    obtain ⟨hm, hn⟩ := hinv.2 pr hpr
    exact ⟨by simp [hm], hn⟩

theorem ite_sfx_ne {C : Prop} [Decidable C] {vid s : String} (h : vid ≠ "") :
    (if C then vid ++ "_" ++ s else vid) ≠ "" := by
  split
  · have h2 : (vid ++ "_").data ≠ [] := by
      rw [String.data_append, show "_".data = ['_'] from rfl]
      simp
    exact append_ne_left h2 _
  · exact h

open AnonymizationManager in
theorem vm_name_stepOK (st : AnonymizationManager) (v : String)
    (vmId : Option String) (count : Bool) (hinv : MgrInv st) :
    StepOK st (st.anonymize_vm_name_with_id v vmId count).2 v
      (st.anonymize_vm_name_with_id v vmId count).1 := by
  by_cases hv : v = ""
  · rw [show st.anonymize_vm_name_with_id v vmId count = (v, st) from by
      simp [anonymize_vm_name_with_id, hv]]
    exact ⟨hinv, List.suffix_refl _, CellOK_refl _ _⟩
  · cases hl : lookup st.name_mappings v with
    | some p =>
      rw [show st.anonymize_vm_name_with_id v vmId count = (p, st) from by
        simp [anonymize_vm_name_with_id, hv, hl]]
      obtain ⟨hm, hn⟩ := hinv.1 (v, p) (lookup_mem hl)
      exact ⟨hinv, List.suffix_refl _, Or.inr ⟨hm, hn⟩⟩
    | none =>
      have hanon : (st.anonymize_vm_name_with_id v vmId count).1 ≠ "" := by
        rcases vmId with _ | vid
        · simp only [anonymize_vm_name_with_id, hv, if_false, hl]
          exact append_ne_left (by
            rw [String.data_append,
              show "VM-".data = ['V', 'M', '-'] from rfl]
            simp) _
        · by_cases hvid : vid = ""
          · simp only [anonymize_vm_name_with_id, hv, if_false, hl, hvid]
            exact append_ne_left (by
              rw [String.data_append,
                show "VM-".data = ['V', 'M', '-'] from rfl]
              simp) _
          · simp only [anonymize_vm_name_with_id, hv, if_false, hl, hvid]
            exact ite_sfx_ne hvid
      have heqs :
          (st.anonymize_vm_name_with_id v vmId count).2.name_mappings =
            store st.name_mappings v
              (st.anonymize_vm_name_with_id v vmId count).1 ∧
          (st.anonymize_vm_name_with_id v vmId count).2.ip_mappings =
            st.ip_mappings ∧
          (st.anonymize_vm_name_with_id v vmId count).2.reverse_mappings =
            store st.reverse_mappings
              (st.anonymize_vm_name_with_id v vmId count).1 v := by
        rcases vmId with _ | vid
        · by_cases hcv : count <;>
            simp [anonymize_vm_name_with_id, hv, hl, hcv]
        · by_cases hvid : vid = "" <;> by_cases hcv : count <;>
            simp [anonymize_vm_name_with_id, hv, hl, hvid, hcv]
      refine ⟨MgrInv_record_name _ _ hinv hanon heqs.1 heqs.2.1
        heqs.2.2, ?_, ?_⟩
      · rw [heqs.2.2]
        exact suffix_store _ _ _
      · rw [heqs.2.2]
        exact Or.inr ⟨by simp [store], hanon⟩

theorem stepOK_refl {st : AnonymizationManager} (hinv : MgrInv st)
    (v : String) : StepOK st st v v :=
  ⟨hinv, List.suffix_refl _, CellOK_refl _ _⟩

theorem stepOK_memo {st : AnonymizationManager} {v p : String}
    (hinv : MgrInv st) (hl : lookup st.name_mappings v = some p) :
    StepOK st st v p := by
  obtain ⟨hm, hn⟩ := hinv.1 (v, p) (lookup_mem hl)
  exact ⟨hinv, List.suffix_refl _, Or.inr ⟨hm, hn⟩⟩

theorem stepOK_memo_ip {st : AnonymizationManager} {v p : String}
    (hinv : MgrInv st) (hl : lookup st.ip_mappings v = some p) :
    StepOK st st v p := by
  obtain ⟨hm, hn⟩ := hinv.2 (v, p) (lookup_mem hl)
  exact ⟨hinv, List.suffix_refl _, Or.inr ⟨hm, hn⟩⟩

theorem stepOK_record {st st' : AnonymizationManager} {v anon : String}
    (hinv : MgrInv st) (hanon : anon ≠ "")
    (hname : st'.name_mappings = store st.name_mappings v anon)
    (hip : st'.ip_mappings = st.ip_mappings)
    (hrev : st'.reverse_mappings = store st.reverse_mappings anon v) :
    StepOK st st' v anon := by
  refine ⟨MgrInv_record_name v anon hinv hanon hname hip hrev, ?_, ?_⟩
  · rw [hrev]
    exact suffix_store _ _ _
  · rw [hrev]
    exact Or.inr ⟨by simp [store], hanon⟩

theorem stepOK_record_ip {st st' : AnonymizationManager} {v anon : String}
    (hinv : MgrInv st) (hanon : anon ≠ "")
    (hname : st'.name_mappings = st.name_mappings)
    (hip : st'.ip_mappings = store st.ip_mappings v anon)
    (hrev : st'.reverse_mappings = store st.reverse_mappings anon v) :
    StepOK st st' v anon := by
  refine ⟨MgrInv_record_ip v anon hinv hanon hname hip hrev, ?_, ?_⟩
  · rw [hrev]
    exact suffix_store _ _ _
  · rw [hrev]
    exact Or.inr ⟨by simp [store], hanon⟩

theorem stepOK_record_rev {st st' : AnonymizationManager} {v anon : String}
    (hinv : MgrInv st) (hanon : anon ≠ "")
    (hname : st'.name_mappings = st.name_mappings)
    (hip : st'.ip_mappings = st.ip_mappings)
    (hrev : st'.reverse_mappings = store st.reverse_mappings anon v) :
    StepOK st st' v anon := by
  refine ⟨MgrInv_record_rev v anon hinv hname hip hrev, ?_, ?_⟩
  · rw [hrev]
    exact suffix_store _ _ _
  · rw [hrev]
    exact Or.inr ⟨by simp [store], hanon⟩

theorem md5hex_ne_nil (s : String) : md5hex s ≠ [] := by
  show bytesToHex (md5Digest (strBytes s)) ≠ []
  have h : ∀ w : Nat × Nat × Nat × Nat,
      bytesToHex (leBytes 4 w.1 ++ leBytes 4 w.2.1 ++ leBytes 4 w.2.2.1 ++
        leBytes 4 w.2.2.2) ≠ [] := by
    intro w
    rw [show leBytes 4 w.1 = w.1 % 256 :: leBytes 3 (w.1 / 256) from rfl]
    simp [bytesToHex]
  exact h (md5Blocks (0x67452301, 0xefcdab89, 0x98badcfe, 0x10325476)
    (md5Pad (strBytes s)))

open AnonymizationManager in
theorem host_name_stepOK (st : AnonymizationManager) (v : String)
    (count : Bool) (hinv : MgrInv st) :
    StepOK st (st.anonymize_host_name v count).2 v
      (st.anonymize_host_name v count).1 := by
  by_cases hv : v = ""
  · rw [show st.anonymize_host_name v count = (v, st) from by
      simp [anonymize_host_name, hv]]
    exact stepOK_refl hinv v
  · cases hl : lookup st.name_mappings v with
    | some p =>
      rw [show st.anonymize_host_name v count = (p, st) from by
        simp [anonymize_host_name, hv, hl]]
      exact stepOK_memo hinv hl
    | none =>
      refine stepOK_record hinv ?_ ?_ ?_ ?_
      · simp only [anonymize_host_name, hv, if_false, hl]
        exact append_ne_left (by decide) _
      all_goals by_cases hcv : count <;>
        simp [anonymize_host_name, hv, hl, hcv]

open AnonymizationManager in
theorem cluster_name_stepOK (st : AnonymizationManager) (v : String)
    (hinv : MgrInv st) :
    StepOK st (st.anonymize_cluster_name v).2 v
      (st.anonymize_cluster_name v).1 := by
  by_cases hv : v = ""
  · rw [show st.anonymize_cluster_name v = (v, st) from by
      simp [anonymize_cluster_name, hv]]
    exact stepOK_refl hinv v
  · cases hl : lookup st.name_mappings v with
    | some p =>
      rw [show st.anonymize_cluster_name v = (p, st) from by
        simp [anonymize_cluster_name, hv, hl]]
      exact stepOK_memo hinv hl
    | none =>
      refine stepOK_record hinv ?_ ?_ ?_ ?_
      · simp only [anonymize_cluster_name, hv, if_false, hl]
        exact append_ne_left (by decide) _
      all_goals simp [anonymize_cluster_name, hv, hl]

open AnonymizationManager in
theorem datacenter_name_stepOK (st : AnonymizationManager) (v : String)
    (hinv : MgrInv st) :
    StepOK st (st.anonymize_datacenter_name v).2 v
      (st.anonymize_datacenter_name v).1 := by
  by_cases hv : v = ""
  · rw [show st.anonymize_datacenter_name v = (v, st) from by
      simp [anonymize_datacenter_name, hv]]
    exact stepOK_refl hinv v
  · cases hl : lookup st.name_mappings v with
    | some p =>
      rw [show st.anonymize_datacenter_name v = (p, st) from by
        simp [anonymize_datacenter_name, hv, hl]]
      exact stepOK_memo hinv hl
    | none =>
      refine stepOK_record hinv ?_ ?_ ?_ ?_
      · simp only [anonymize_datacenter_name, hv, if_false, hl]
        exact append_ne_left (by decide) _
      all_goals simp [anonymize_datacenter_name, hv, hl]

open AnonymizationManager in
theorem generic_field_stepOK (st : AnonymizationManager) (v ft : String)
    (hinv : MgrInv st) :
    StepOK st (st.anonymize_generic_field v ft).2 v
      (st.anonymize_generic_field v ft).1 := by
  by_cases hv : v = ""
  · rw [show st.anonymize_generic_field v ft = (v, st) from by
      simp [anonymize_generic_field, hv]]
    exact stepOK_refl hinv v
  · cases hl : lookup st.name_mappings v with
    | some p =>
      rw [show st.anonymize_generic_field v ft = (p, st) from by
        simp [anonymize_generic_field, hv, hl]]
      exact stepOK_memo hinv hl
    | none =>
      refine stepOK_record hinv ?_ ?_ ?_ ?_
      · simp only [anonymize_generic_field, hv, if_false, hl]
        refine append_ne_left ?_ _
        rw [String.data_append, show "-".data = ['-'] from rfl]
        simp
      all_goals simp [anonymize_generic_field, hv, hl]

theorem mac_stepOK (st : AnonymizationManager) (v : String)
    (hinv : MgrInv st) :
    StepOK st (anonymizeMac st v).2 v (anonymizeMac st v).1 := by
  refine stepOK_record_rev hinv ?_ rfl rfl rfl
  apply ne_empty_of_data
  simp [anonymizeMac, strOf, joinChars]

theorem uuid_stepOK (st : AnonymizationManager) (v : String)
    (hinv : MgrInv st) :
    StepOK st (anonymizeUuid st v).2 v (anonymizeUuid st v).1 := by
  refine stepOK_record_rev hinv ?_ rfl rfl rfl
  simp only [anonymizeUuid]
  split
  · apply ne_empty_of_data
    simp [String.data_append, show "-".data = ['-'] from rfl]
  · apply ne_empty_of_data
    simpa [strOf] using md5hex_ne_nil v

theorem ipv4ToString_ne (n : Nat) : ipv4ToString n ≠ "" := by
  apply ne_empty_of_data
  simp [ipv4ToString, strOf]

theorem ipv6_anon_ne (s1 s2 s3 s4 s5 s6 : String) :
    "2001:db8:" ++ s1 ++ ":" ++ s2 ++ ":" ++ s3 ++ ":" ++ s4 ++ ":" ++ s5 ++
      ":" ++ s6 ≠ "" := by
  apply ne_empty_of_data
  simp [String.data_append, show ("2001:db8:").data =
    ['2', '0', '0', '1', ':', 'd', 'b', '8', ':'] from rfl]

open AnonymizationManager in
theorem single_ip_stepOK (st : AnonymizationManager) (v : String)
    (hinv : MgrInv st) :
    StepOK st (st.anonymize_single_ip v).2 v
      (st.anonymize_single_ip v).1 := by
  by_cases hv : v = ""
  · subst hv
    rw [show st.anonymize_single_ip "" =
        ((lookup st.ip_mappings "").getD "", st) from by
      simp [anonymize_single_ip]]
    cases hl : lookup st.ip_mappings "" with
    | some r => exact stepOK_memo_ip hinv hl
    | none => exact stepOK_refl hinv _
  · cases hl : lookup st.ip_mappings v with
    | some r =>
      rw [show st.anonymize_single_ip v = (r, st) from by
        simp [anonymize_single_ip, hv, hl]]
      exact stepOK_memo_ip hinv hl
    | none =>
      cases hp : parseIPv4 v with
      | some q =>
        obtain ⟨a, b, c, d⟩ := q
        refine stepOK_record_ip hinv ?_ ?_ ?_ ?_
        · simp only [anonymize_single_ip, hv, if_false, hl, hp]
          exact ipv4ToString_ne _
        all_goals simp [anonymize_single_ip, hv, hl, hp]
      | none =>
        by_cases h6 : isValidIPv6 v = true
        · refine stepOK_record_ip hinv ?_ ?_ ?_ ?_
          · simp only [anonymize_single_ip, hv, if_false, hl, hp, h6]
            exact ipv6_anon_ne _ _ _ _ _ _
          all_goals simp [anonymize_single_ip, hv, hl, hp, h6]
        · by_cases hsh : shapedIPv4 v = true
          · refine stepOK_record_ip hinv ?_ ?_ ?_ ?_
            · simp only [anonymize_single_ip, hv, if_false, hl, hp, h6, hsh]
              exact append_ne_left (by decide) _
            all_goals simp [anonymize_single_ip, hv, hl, hp, h6, hsh]
          · rw [show st.anonymize_single_ip v = (v, st) from by
              simp [anonymize_single_ip, hv, hl, hp, h6, hsh]]
            exact stepOK_refl hinv v

open AnonymizationManager in
theorem ip_address_stepOK (st : AnonymizationManager) (v : String)
    (hinv : MgrInv st) (hstrip : pyStripS v = v)
    (hc : hasChar v ',' = false) (hsc : hasChar v ';' = false) :
    StepOK st (st.anonymize_ip_address v).2 v
      (st.anonymize_ip_address v).1 := by
  by_cases hv : v = ""
  · subst hv
    rw [show st.anonymize_ip_address "" = ("", st) from rfl]
    exact stepOK_refl hinv _
  · have hred : st.anonymize_ip_address v =
        ((if (st.anonymize_single_ip v).1 ≠ "" then
            (st.anonymize_single_ip v).1 else v),
          (st.anonymize_single_ip v).2) := by
      simp only [anonymize_ip_address, hstrip]
      simp [hv, hc, hsc]
    rw [hred]
    have h1 := single_ip_stepOK st v hinv
    by_cases hne : (st.anonymize_single_ip v).1 = ""
    · rw [if_neg (by simp [hne])]
      exact ⟨h1.1, h1.2.1, CellOK_refl _ _⟩
    · rw [if_pos hne]
      exact h1

theorem cellSafe_not_text {header v : String}
    (hs : cellSafeB header v = true) :
    ¬ header ∈ ["Annotation", "Notes", "Description", "Message"] := by
  intro hm
  simp only [cellSafeB, Bool.and_eq_true] at hs
  obtain ⟨⟨h1, h2⟩, h3⟩ := hs
  rw [Bool.not_eq_true'] at h1
  simp only [List.contains, List.elem_eq_mem, decide_eq_false_iff_not] at h1
  simp only [List.mem_cons, List.not_mem_nil, or_false] at hm h1
  tauto

theorem cellSafe_not_lic {header v : String}
    (hs : cellSafeB header v = true) :
    ¬ header ∈ ["License Key", "Serial Number"] := by
  intro hm
  simp only [cellSafeB, Bool.and_eq_true] at hs
  obtain ⟨⟨h1, h2⟩, h3⟩ := hs
  rw [Bool.not_eq_true'] at h1
  simp only [List.contains, List.elem_eq_mem, decide_eq_false_iff_not] at h1
  simp only [List.mem_cons, List.not_mem_nil, or_false] at hm h1
  tauto

theorem cellSafe_dns {header v : String} (hs : cellSafeB header v = true)
    (hm : header ∈ ["DNS Name", "FQDN", "DNS Server", "DNS Servers"]) :
    hasChar v '.' = false := by
  simp only [cellSafeB, Bool.and_eq_true] at hs
  obtain ⟨⟨h1, h2⟩, h3⟩ := hs
  rw [Bool.or_eq_true] at h2
  rcases h2 with h2 | h2
  · rw [Bool.not_eq_true'] at h2
    simp only [List.contains, List.elem_eq_mem, decide_eq_false_iff_not] at h2
    exact absurd hm h2
  · rwa [Bool.not_eq_true'] at h2

theorem cellSafe_addr {header v : String} (hs : cellSafeB header v = true)
    (hm : header ∈ ["IP Address", "Primary IP Address", "IPv4 Address",
      "IPv6 Address", "IP Addresses", "Address"]) :
    hasChar v ',' = false ∧ hasChar v ';' = false ∧ pyStripS v = v := by
  simp only [cellSafeB, Bool.and_eq_true] at hs
  obtain ⟨⟨h1, h2⟩, h3⟩ := hs
  rw [Bool.or_eq_true] at h3
  rcases h3 with h3 | h3
  · rw [Bool.not_eq_true'] at h3
    simp only [List.contains, List.elem_eq_mem, decide_eq_false_iff_not] at h3
    exact absurd hm h3
  · rw [Bool.and_eq_true] at h3
    obtain ⟨h4, h5⟩ := h3
    rw [Bool.and_eq_true] at h4
    obtain ⟨h6, h7⟩ := h4
    refine ⟨?_, ?_, ?_⟩
    · rwa [Bool.not_eq_true'] at h6
    · rwa [Bool.not_eq_true'] at h7
    · simpa using h5

set_option maxHeartbeats 2000000 in
open AnonymizationManager in
theorem processCell_stepOK (st : AnonymizationManager)
    (sheetName header : String) (vmId : Option String) (v : String)
    (hinv : MgrInv st) (hsafe : cellSafeB header v = true) :
    StepOK st (processCell st sheetName header vmId v).2 v
      (processCell st sheetName header vmId v).1 := by
  suffices h : ∀ r, processCell st sheetName header vmId v = r →
      StepOK st r.2 v r.1 by exact h _ rfl
  intro r hr
  delta processCell at hr
  by_cases hc1 : pyStripS v = ""
  · rw [if_pos hc1] at hr
    subst hr
    exact stepOK_refl hinv v
  rw [if_neg hc1] at hr
  by_cases hc2 : header ∈ ["Port", "VLAN", "VLAN ID", "CPU", "Memory", "Disk Size",
      "Used Space", "Free Space"] ∧ pyIsDigit v = true
  · rw [if_pos hc2] at hr
    subst hr
    exact stepOK_refl hinv v
  rw [if_neg hc2] at hr
  by_cases hc3 : header ∈ ["VM", "VM Name", "Name"] ∧ sheetName ∈ ["vInfo",
      "vSnapshot", "vCPU", "vMemory", "vDisk", "vPartition", "vNetwork",
      "vFloppy", "vCD"]
  · rw [if_pos hc3] at hr
    subst hr
    exact vm_name_stepOK st v vmId _ hinv
  rw [if_neg hc3] at hr
  by_cases hc4 : header ∈ ["Host", "ESX Host", "Host Name", "Hosts"]
  · rw [if_pos hc4] at hr
    subst hr
    exact host_name_stepOK st v _ hinv
  rw [if_neg hc4] at hr
  by_cases hc5 : header ∈ ["Cluster", "Cluster Name"]
  · rw [if_pos hc5] at hr
    subst hr
    exact cluster_name_stepOK st v hinv
  rw [if_neg hc5] at hr
  by_cases hc6 : header ∈ ["Datacenter", "Datacenter Name"]
  · rw [if_pos hc6] at hr
    subst hr
    exact datacenter_name_stepOK st v hinv
  rw [if_neg hc6] at hr
  by_cases hc7 : header ∈ ["IP Address", "Primary IP Address", "IPv4 Address",
      "IPv6 Address", "IP Addresses", "Address"]
  · rw [if_pos hc7] at hr
    obtain ⟨ha, hb, hc2⟩ := cellSafe_addr hsafe hc7
    subst hr
    exact ip_address_stepOK st v hinv hc2 ha hb
  rw [if_neg hc7] at hr
  by_cases hc8 : header ∈ ["DNS Name", "FQDN", "DNS Server", "DNS Servers"]
  · rw [if_pos hc8] at hr
    rw [cellSafe_dns hsafe hc8] at hr
    rw [if_neg (by simp)] at hr
    subst hr
    exact generic_field_stepOK st v _ hinv
  rw [if_neg hc8] at hr
  by_cases hc9 : header ∈ ["Mac Address", "MAC Address"]
  · rw [if_pos hc9] at hr
    subst hr
    exact mac_stepOK st v hinv
  rw [if_neg hc9] at hr
  by_cases hc10 : header ∈ ["Folder", "Path", "Log directory", "Snapshot directory",
      "Suspend directory", "Resource Pool path"]
  · rw [if_pos hc10] at hr
    subst hr
    exact generic_field_stepOK st v _ hinv
  rw [if_neg hc10] at hr
  by_cases hc11 : header ∈ ["Disk", "Disk Path", "Filename", "File", "Display Name"]
      ∧ sheetName ∈ ["vDisk", "vPartition", "vMultiPath"]
  · rw [if_pos hc11] at hr
    subst hr
    exact generic_field_stepOK st v _ hinv
  rw [if_neg hc11] at hr
  by_cases hc12 : header ∈ ["Internal Sort Column"]
  · rw [if_pos hc12] at hr
    subst hr
    exact generic_field_stepOK st v _ hinv
  rw [if_neg hc12] at hr
  by_cases hc13 : header ∈ ["Annotation", "Notes", "Description", "Message"]
  · rw [if_pos hc13] at hr
    exact absurd hc13 (cellSafe_not_text hsafe)
  rw [if_neg hc13] at hr
  by_cases hc14 : header ∈ ["VI SDK Server", "vCenter"]
  · rw [if_pos hc14] at hr
    subst hr
    exact generic_field_stepOK st v _ hinv
  rw [if_neg hc14] at hr
  by_cases hc15 : header ∈ ["Resource Pool", "Resource pool"]
  · rw [if_pos hc15] at hr
    subst hr
    exact generic_field_stepOK st v _ hinv
  rw [if_neg hc15] at hr
  by_cases hc16 : header ∈ ["Datastore", "Datastore Name"]
  · rw [if_pos hc16] at hr
    subst hr
    exact generic_field_stepOK st v _ hinv
  rw [if_neg hc16] at hr
  by_cases hc17 : header ∈ ["Network", "Network Name", "Switch", "vSwitch"]
  · rw [if_pos hc17] at hr
    subst hr
    exact generic_field_stepOK st v _ hinv
  rw [if_neg hc17] at hr
  by_cases hc18 : header ∈ ["URL"]
  · rw [if_pos hc18] at hr
    subst hr
    exact generic_field_stepOK st v _ hinv
  rw [if_neg hc18] at hr
  by_cases hc19 : header = "Name" ∧ sheetName = "vHealth"
  · rw [if_pos hc19] at hr
    subst hr
    exact generic_field_stepOK st v _ hinv
  rw [if_neg hc19] at hr
  by_cases hc20 : header ∈ ["Guest OS", "Guest OS Full Name"] ∧ hasHostnameWord v = true
  · rw [if_pos hc20] at hr
    subst hr
    exact generic_field_stepOK st v _ hinv
  rw [if_neg hc20] at hr
  by_cases hc21 : header ∈ ["Template", "Template Name"]
  · rw [if_pos hc21] at hr
    subst hr
    exact generic_field_stepOK st v _ hinv
  rw [if_neg hc21] at hr
  by_cases hc22 : header ∈ ["VM UUID", "Instance UUID"] ∧ 10 < v.length
  · rw [if_pos hc22] at hr
    subst hr
    exact uuid_stepOK st v hinv
  rw [if_neg hc22] at hr
  by_cases hc23 : header ∈ ["Config File", "VMX File"]
  · rw [if_pos hc23] at hr
    subst hr
    exact generic_field_stepOK st v _ hinv
  rw [if_neg hc23] at hr
  by_cases hc24 : header ∈ ["Snapshot Name", "Snapshot Description"]
  · rw [if_pos hc24] at hr
    subst hr
    exact generic_field_stepOK st v _ hinv
  rw [if_neg hc24] at hr
  by_cases hc25 : header ∈ ["License Key", "Serial Number"]
  · rw [if_pos hc25] at hr
    exact absurd hc25 (cellSafe_not_lic hsafe)
  rw [if_neg hc25] at hr
  by_cases hc26 : header ∈ ["User", "Owner", "Created By"]
  · rw [if_pos hc26] at hr
    subst hr
    exact generic_field_stepOK st v _ hinv
  rw [if_neg hc26] at hr
  subst hr
  exact stepOK_refl hinv v
theorem forall2_getElem {α β : Type} {R : α → β → Prop} :
    ∀ {l : List α} {l' : List β}, List.Forall₂ R l l' → ∀ (i : Nat) x y,
      l[i]? = some x → l'[i]? = some y → R x y := by
  intro l l' h
  induction h with
  | nil => intro i x y hx hy; cases hx
  | cons hr ht ih =>
    intro i x y hx hy
    cases i with
    | zero =>
      simp only [List.getElem?_cons_zero, Option.some.injEq] at hx hy
      rw [← hx, ← hy]
      exact hr
    | succ j =>
      simp only [List.getElem?_cons_succ] at hx hy
      exact ih j x y hx hy

theorem cellsOK_refl (rev : List (String × String)) (l : List String) :
    List.Forall₂ (CellOK rev) l l :=
  List.forall₂_same.mpr fun x _ => CellOK_refl rev x

theorem rowsOK_refl (rev : List (String × String))
    (rows : List (List String)) :
    List.Forall₂ (List.Forall₂ (CellOK rev)) rows rows :=
  List.forall₂_same.mpr fun r _ => cellsOK_refl rev r

theorem cellsOK_mono {rev rev' : List (String × String)}
    {l l' : List String} (h : List.Forall₂ (CellOK rev) l l')
    (hs : rev <:+ rev') : List.Forall₂ (CellOK rev') l l' :=
  h.imp fun _ _ hc => CellOK_mono hc hs

theorem rowsOK_mono {rev rev' : List (String × String)}
    {r r' : List (List String)}
    (h : List.Forall₂ (List.Forall₂ (CellOK rev)) r r')
    (hs : rev <:+ rev') : List.Forall₂ (List.Forall₂ (CellOK rev')) r r' :=
  h.imp fun _ _ hr => cellsOK_mono hr hs

theorem SheetOKd_refl (rev : List (String × String)) (s : Sheet) :
    SheetOKd rev s s := ⟨rfl, rfl, rowsOK_refl rev s.rows⟩

theorem SheetOKd_mono {rev rev' : List (String × String)} {s s' : Sheet}
    (h : SheetOKd rev s s') (hs : rev <:+ rev') : SheetOKd rev' s s' :=
  ⟨h.1, h.2.1, rowsOK_mono h.2.2 hs⟩

theorem SheetRel_mono {ns : List String} {n : String}
    {rev rev' : List (String × String)} {s s' : Sheet}
    (h : SheetRel (n :: ns) rev s s') (hs : rev <:+ rev') :
    SheetRel ns rev' s s' :=
  ⟨h.1, fun hm => h.2.1 (List.mem_cons_of_mem _ hm),
   h.2.2.elim Or.inl fun hok => Or.inr (SheetOKd_mono hok hs)⟩

open AnonymizationManager in
theorem processCells_stepOK (sheetName : String) (vmId : Option String) :
    ∀ (cells headers : List String) (st : AnonymizationManager),
      MgrInv st → rowSafeB cells headers = true →
      MgrInv (processCells st sheetName vmId cells headers).2 ∧
      st.reverse_mappings <:+
        (processCells st sheetName vmId cells headers).2.reverse_mappings ∧
      List.Forall₂
        (CellOK (processCells st sheetName vmId cells headers).2.reverse_mappings)
        cells (processCells st sheetName vmId cells headers).1 := by
  intro cells
  induction cells with
  | nil =>
    intro headers st hinv _
    cases headers with
    | nil => exact ⟨hinv, List.suffix_refl _, List.Forall₂.nil⟩
    | cons h hs => exact ⟨hinv, List.suffix_refl _, List.Forall₂.nil⟩
  | cons c cs ih =>
    intro headers st hinv hsafe
    cases headers with
    | nil => exact ⟨hinv, List.suffix_refl _, cellsOK_refl _ _⟩
    | cons h hs =>
      rw [rowSafeB, Bool.and_eq_true] at hsafe
      obtain ⟨hc, hrest⟩ := hsafe
      obtain ⟨hinv1, hsuf1, hok1⟩ :=
        processCell_stepOK st sheetName h vmId c hinv hc
      obtain ⟨hinv2, hsuf2, hok2⟩ :=
        ih hs (processCell st sheetName h vmId c).2 hinv1 hrest
      exact ⟨hinv2, hsuf1.trans hsuf2,
        List.Forall₂.cons (CellOK_mono hok1 hsuf2) hok2⟩

open AnonymizationManager in
theorem processRows_stepOK (sheetName : String) (headers : List String)
    (vmIdIdx : Option Nat) :
    ∀ (rows : List (List String)) (st : AnonymizationManager),
      MgrInv st → (rows.all fun row => rowSafeB row headers) = true →
      MgrInv (processRows st sheetName headers vmIdIdx rows).2 ∧
      st.reverse_mappings <:+
        (processRows st sheetName headers vmIdIdx rows).2.reverse_mappings ∧
      List.Forall₂
        (List.Forall₂
          (CellOK (processRows st sheetName headers vmIdIdx rows).2.reverse_mappings))
        rows (processRows st sheetName headers vmIdIdx rows).1 := by
  intro rows
  induction rows with
  | nil =>
    intro st hinv _
    exact ⟨hinv, List.suffix_refl _, List.Forall₂.nil⟩
  | cons row rest ih =>
    intro st hinv hsafe
    rw [List.all_cons, Bool.and_eq_true] at hsafe
    obtain ⟨hrow, hrest⟩ := hsafe
    obtain ⟨hinv1, hsuf1, hok1⟩ :=
      processCells_stepOK sheetName (rowVmId vmIdIdx row) row headers st hinv
        hrow
    obtain ⟨hinv2, hsuf2, hok2⟩ := ih _ hinv1 hrest
    exact ⟨hinv2, hsuf1.trans hsuf2,
      List.Forall₂.cons (cellsOK_mono hok1 hsuf2) hok2⟩

open AnonymizationManager in
theorem processSheet_stepOK (st : AnonymizationManager) (s : Sheet)
    (hinv : MgrInv st) (hsafe : sheetSafeB s = true) :
    MgrInv (processSheet st s).2 ∧
    st.reverse_mappings <:+ (processSheet st s).2.reverse_mappings ∧
    SheetOKd (processSheet st s).2.reverse_mappings s (processSheet st s).1 := by
  obtain ⟨n, rows⟩ := s
  cases rows with
  | nil => exact ⟨hinv, List.suffix_refl _, SheetOKd_refl _ _⟩
  | cons headers dataRows =>
    cases dataRows with
    | nil => exact ⟨hinv, List.suffix_refl _, SheetOKd_refl _ _⟩
    | cons r2 drest =>
      have hall : ((r2 :: drest).all fun row => rowSafeB row headers) =
          true := by simpa [sheetSafeB] using hsafe
      obtain ⟨hinv1, hsuf1, hok1⟩ :=
        processRows_stepOK n headers (if "VM ID" ∈ headers
            then headers.findIdx? (fun h => h = "VM ID") else none)
          (r2 :: drest) st hinv hall
      exact ⟨hinv1, hsuf1, rfl, rfl,
        List.Forall₂.cons (cellsOK_refl _ headers) hok1⟩
open AnonymizationManager in
theorem updateSheetNamed_rel {wb sheets : List Sheet}
    {st : AnonymizationManager} {n : String} {ns : List String}
    (hinv : MgrInv st) (hn : ¬ n ∈ ns)
    (hrel : List.Forall₂ (SheetRel (n :: ns) st.reverse_mappings) wb sheets) :
    MgrInv (updateSheetNamed st n sheets).2 ∧
    st.reverse_mappings <:+
      (updateSheetNamed st n sheets).2.reverse_mappings ∧
    List.Forall₂
      (SheetRel ns (updateSheetNamed st n sheets).2.reverse_mappings) wb
      (updateSheetNamed st n sheets).1 := by
  induction hrel with
  | nil => exact ⟨hinv, List.suffix_refl _, List.Forall₂.nil⟩
  | @cons s s' wbt sheetst hpair hrest ih =>
    by_cases hsn : s'.name = n
    · have hs : s' = s ∧ sheetSafeB s = true := by
        apply hpair.2.1
        rw [← hpair.1, hsn]
        exact List.mem_cons_self _ _
      obtain ⟨hseq, hsafe⟩ := hs
      subst hseq
      rw [show updateSheetNamed st n (s' :: sheetst) =
          ((processSheet st s').1 :: sheetst, (processSheet st s').2) from by
        simp [updateSheetNamed, hsn]]
      obtain ⟨hinv1, hsuf1, hok1⟩ := processSheet_stepOK st s' hinv hsafe
      refine ⟨hinv1, hsuf1, List.Forall₂.cons ⟨hok1.1, ?_, Or.inr hok1⟩ ?_⟩
      · intro hmem
        exact absurd (hsn ▸ hmem) hn
      · exact hrest.imp fun _ _ hp => SheetRel_mono hp hsuf1
    · rw [show updateSheetNamed st n (s' :: sheetst) =
          (s' :: (updateSheetNamed st n sheetst).1,
            (updateSheetNamed st n sheetst).2) from by
        simp [updateSheetNamed, hsn]]
      obtain ⟨hinv2, hsuf2, hok2⟩ := ih
      refine ⟨hinv2, hsuf2, List.Forall₂.cons ?_ hok2⟩
      exact ⟨hpair.1, fun hm => hpair.2.1 (List.mem_cons_of_mem _ hm),
        hpair.2.2.elim Or.inl fun hok => Or.inr (SheetOKd_mono hok hsuf2)⟩

open AnonymizationManager in
theorem runSheets_rel {wb : List Sheet} :
    ∀ (ns : List String) (sheets : List Sheet) (st : AnonymizationManager),
      ns.Nodup → MgrInv st →
      List.Forall₂ (SheetRel ns st.reverse_mappings) wb sheets →
      MgrInv (runSheets (sheets, st) ns).2 ∧
      st.reverse_mappings <:+ (runSheets (sheets, st) ns).2.reverse_mappings ∧
      List.Forall₂
        (SheetRel [] (runSheets (sheets, st) ns).2.reverse_mappings) wb
        (runSheets (sheets, st) ns).1 := by
  intro ns
  induction ns with
  | nil =>
    intro sheets st _ hinv hrel
    exact ⟨hinv, List.suffix_refl _, hrel⟩
  | cons n rest ih =>
    intro sheets st hnd hinv hrel
    rw [List.nodup_cons] at hnd
    obtain ⟨hinv1, hsuf1, hrel1⟩ := updateSheetNamed_rel hinv hnd.1 hrel
    obtain ⟨hinv2, hsuf2, hrel2⟩ := ih _ _ hnd.2 hinv1 hrel1
    exact ⟨hinv2, hsuf1.trans hsuf2, hrel2⟩

theorem sheetOrder_nodup {wb : List Sheet}
    (h : (wb.map Sheet.name).Nodup) : (sheetOrder wb).Nodup := by
  rw [sheetOrder]
  apply List.Nodup.append
  · exact List.Nodup.filter _ (by decide)
  · exact List.Nodup.filter _ h
  · intro x hx1 hx2
    rw [List.mem_filter] at hx1 hx2
    have h2 := hx2.2
    rw [Bool.not_eq_true'] at h2
    simp only [List.contains, List.elem_eq_mem, decide_eq_false_iff_not]
      at h2
    exact h2 hx1.1

open AnonymizationManager in
theorem anonymizeWorkbook_ok (wb : List Sheet) (sfx : String)
    (hsafe : workbookSafeB wb = true)
    (hnames : (wb.map Sheet.name).Nodup) :
    MgrInv (anonymizeWorkbook wb sfx).2 ∧
    List.Forall₂ (SheetOKd (anonymizeWorkbook wb sfx).2.reverse_mappings) wb
      (anonymizeWorkbook wb sfx).1 := by
  have h0 : List.Forall₂ (SheetRel (sheetOrder wb)
      (AnonymizationManager.init sfx).reverse_mappings) wb wb := by
    rw [List.forall₂_same]
    intro s hs
    refine ⟨rfl, fun _ => ⟨rfl, ?_⟩, Or.inl rfl⟩
    rw [workbookSafeB, List.all_eq_true] at hsafe
    exact hsafe s hs
  obtain ⟨hinv, hsuf, hrel⟩ := runSheets_rel (sheetOrder wb) wb
    (AnonymizationManager.init sfx) (sheetOrder_nodup hnames)
    (MgrInv_init sfx) h0
  refine ⟨hinv, hrel.imp fun s s' hp => ?_⟩
  rcases hp.2.2 with rfl | hok
  · exact SheetOKd_refl _ _
  · exact hok
theorem deanonSheet_restores {rev : List (String × String)}
    (hnd : (rev.map Prod.fst).Nodup) {s s' : Sheet}
    (hok : SheetOKd rev s s') {ri ci : Nat} {a b : String}
    (ha : s.rows[ri]?.bind (fun row => row[ci]?) = some a)
    (hb : s'.rows[ri]?.bind (fun row => row[ci]?) = some b)
    (hne : b ≠ a) :
    (deanonSheet rev s').rows[ri]?.bind (fun row => row[ci]?) = some a := by
  obtain ⟨hname, hhead, hrows⟩ := hok
  rw [Option.bind_eq_some] at ha hb
  obtain ⟨row, hrowa, ha⟩ := ha
  obtain ⟨row', hrowb, hb⟩ := hb
  cases hsr : s'.rows with
  | nil =>
    rw [hsr] at hrowb
    simp at hrowb
  | cons h' t' =>
    cases hsr2 : s.rows with
    | nil =>
      rw [hsr2] at hrowa
      simp at hrowa
    | cons h t =>
      have hh : h' = h := by
        rw [hsr, hsr2] at hhead
        simpa using hhead
      subst hh
      rw [hsr, hsr2] at hrows
      have htail : List.Forall₂ (List.Forall₂ (CellOK rev)) t t' := by
        cases hrows with | cons _ ht => exact ht
      cases ri with
      | zero =>
        rw [hsr2] at hrowa
        rw [hsr] at hrowb
        simp only [List.getElem?_cons_zero, Option.some.injEq] at hrowa hrowb
        rw [← hrowa] at ha
        rw [← hrowb] at hb
        rw [ha] at hb
        exact absurd (by simpa using hb.symm) hne
      | succ k =>
        rw [hsr2] at hrowa
        rw [hsr] at hrowb
        simp only [List.getElem?_cons_succ] at hrowa hrowb
        cases t' with
        | nil => simp at hrowb
        | cons r2 t2 =>
          have hd : (deanonSheet rev s').rows =
              h' :: (r2 :: t2).map fun row => row.map (deanonCell rev) := by
            rw [deanonSheet, hsr]
          rw [hd]
          simp only [List.getElem?_cons_succ, List.getElem?_map, hrowb,
            Option.map_some', Option.some_bind]
          rw [hb]
          have hcell := forall2_getElem htail k row row' hrowa hrowb
          have hco := forall2_getElem hcell ci a b ha hb
          rcases hco with rfl | ⟨hmem, hbne⟩
          · exact absurd rfl hne
          · simp [deanonCell, lookup_of_nodup hnd hmem, hbne]
/-- C1 (amended): for a workbook anonymized with a fresh manager and then
deanonymized with the reverse mapping of the same run, every cell changed
by the anonymization pass is restored exactly, provided every transformed
cell records an exact reverse mapping (no redaction constants, DNS
composites, or multi-value/unstripped address cells), worksheet names are
unique, and the recorded reverse keys are free of collisions. -/
theorem roundtrip_restores_transformed_cells (wb : List Sheet)
    (sfx : String) (hsafe : workbookSafeB wb = true)
    (hnames : (wb.map Sheet.name).Nodup)
    (hnd : (((anonymizeWorkbook wb sfx).2.reverse_mappings).map
      Prod.fst).Nodup)
    (si ri ci : Nat) (a b : String)
    (ha : getCell wb si ri ci = some a)
    (hb : getCell (anonymizeWorkbook wb sfx).1 si ri ci = some b)
    (hne : b ≠ a) :
    getCell (deanonymizeWorkbook
      (anonymizeWorkbook wb sfx).2.reverse_mappings
      (anonymizeWorkbook wb sfx).1) si ri ci = some a := by
  obtain ⟨hinv, hrel⟩ := anonymizeWorkbook_ok wb sfx hsafe hnames
  rw [getCell] at ha hb ⊢
  rw [Option.bind_eq_some] at ha hb
  obtain ⟨rowsa, hsa, ha⟩ := ha
  obtain ⟨rowsb, hsb, hb⟩ := hb
  rw [Option.map_eq_some'] at hsa hsb
  obtain ⟨s, hsa1, hsa2⟩ := hsa
  obtain ⟨s', hsb1, hsb2⟩ := hsb
  subst hsa2
  subst hsb2
  have hok := forall2_getElem hrel si s s' hsa1 hsb1
  rw [deanonymizeWorkbook, List.getElem?_map, hsb1]
  simp only [Option.map_some', Option.some_bind]
  exact deanonSheet_restores hnd hok ha hb hne

/-- C1 counterexample to the unconditional claim: a nonempty `Annotation`
cell is changed to the constant `ANONYMIZED_TEXT`, which records no
reverse mapping, so the deanonymization pass does not restore it. -/
theorem redaction_breaks_roundtrip :
    ∃ wb : List Sheet, ∃ a b : String,
      getCell wb 0 1 0 = some a ∧
      getCell (anonymizeWorkbook wb "").1 0 1 0 = some b ∧
      b ≠ a ∧
      getCell (deanonymizeWorkbook
        (anonymizeWorkbook wb "").2.reverse_mappings
        (anonymizeWorkbook wb "").1) 0 1 0 ≠ some a := by
  refine ⟨[⟨"vInfo", [["Annotation"], ["my secret"]]⟩], "my secret",
    "ANONYMIZED_TEXT", ?_, ?_, ?_, ?_⟩ <;> decide

theorem roundtrip_restores_transformed_cells_witness :
    getCell (deanonymizeWorkbook
      (anonymizeWorkbook [⟨"vHost", [["Host"], ["esx1"]]⟩]
        "").2.reverse_mappings
      (anonymizeWorkbook [⟨"vHost", [["Host"], ["esx1"]]⟩] "").1) 0 1 0 =
      some "esx1" :=
  roundtrip_restores_transformed_cells
    [⟨"vHost", [["Host"], ["esx1"]]⟩] "" (by decide) (by decide) (by decide)
    0 1 0 "esx1" "HOST-0001" (by decide) (by decide) (by decide)
theorem takeWhile_dash (t : List Char) (ht : ∀ c ∈ t, (c != '-') = true)
    (r : List Char) :
    (t ++ '-' :: r).takeWhile (fun c => c != '-') = t ∧
    (t ++ '-' :: r).dropWhile (fun c => c != '-') = '-' :: r := by
  induction t with
  | nil =>
    constructor
    · simp [List.takeWhile_cons]
    · simp [List.dropWhile_cons]
  | cons c cs ih =>
    have hc : (c != '-') = true := ht c (List.mem_cons_self _ _)
    have iht := ih fun x hx => ht x (List.mem_cons_of_mem _ hx)
    constructor
    · simp only [List.cons_append, List.takeWhile_cons, hc, if_true, iht.1]
    · simp only [List.cons_append, List.dropWhile_cons, hc, if_true, iht.2]

theorem dashfree_split_inj {t1 t2 : String} {r1 r2 : List Char}
    (h1 : ∀ c ∈ t1.data, (c != '-') = true)
    (h2 : ∀ c ∈ t2.data, (c != '-') = true)
    (he : strOf (t1.data ++ '-' :: r1) = strOf (t2.data ++ '-' :: r2)) :
    t1 = t2 ∧ r1 = r2 := by
  have hd : t1.data ++ '-' :: r1 = t2.data ++ '-' :: r2 :=
    congrArg String.data he
  have e1 := (takeWhile_dash t1.data h1 r1).1
  have e2 := (takeWhile_dash t2.data h2 r2).1
  have d1 := (takeWhile_dash t1.data h1 r1).2
  have d2 := (takeWhile_dash t2.data h2 r2).2
  rw [hd] at e1 d1
  constructor
  · apply String.ext
    rw [← e1, e2]
  · have hdd : '-' :: r1 = '-' :: r2 := by rw [← d1, d2]
    simpa using hdd

theorem host_shape_eq (k : Nat) :
    "HOST-" ++ pad4S k = strOf (("HOST" : String).data ++ '-' :: pad4 k) :=
  rfl

theorem cluster_shape_eq (k : Nat) :
    "CLUSTER-" ++ pad4S k =
      strOf (("CLUSTER" : String).data ++ '-' :: pad4 k) := rfl

theorem dc_shape_eq (k : Nat) :
    "DC-" ++ pad4S k = strOf (("DC" : String).data ++ '-' :: pad4 k) := rfl

theorem vm_shape_eq (k : Nat) (s : String) :
    "VM-" ++ pad4S k ++ vmSfx s =
      strOf (("VM" : String).data ++ '-' :: (pad4 k ++ (vmSfx s).data)) := by
  apply String.ext
  show ("VM-".data ++ pad4 k) ++ (vmSfx s).data = _
  rw [show "VM-".data = ['V', 'M', '-'] from rfl]
  simp [strOf]

theorem generic_shape_eq (ft : String) (k : Nat) :
    ft ++ "-" ++ pad4S k = strOf (ft.data ++ '-' :: pad4 k) := by
  apply String.ext
  show (ft.data ++ "-".data) ++ pad4 k = _
  rw [show "-".data = ['-'] from rfl]
  simp [strOf]

theorem host_dashfree : ∀ c ∈ ("HOST" : String).data, (c != '-') = true := by
  decide

theorem cluster_dashfree :
    ∀ c ∈ ("CLUSTER" : String).data, (c != '-') = true := by decide

theorem dc_dashfree : ∀ c ∈ ("DC" : String).data, (c != '-') = true := by
  decide

theorem vm_dashfree : ∀ c ∈ ("VM" : String).data, (c != '-') = true := by
  decide

theorem safeFts_dashfree :
    ∀ ft ∈ safeFts, ∀ c ∈ ft.data, (c != '-') = true := by decide

theorem safeFts_tags : ∀ ft ∈ safeFts, ft ≠ "HOST" ∧ ft ≠ "CLUSTER" ∧
    ft ≠ "DC" ∧ ft ≠ "VM" := by decide

theorem ValShape_ne_fresh {st : AnonymizationManager} {p : String}
    (hs : ValShape st p) :
    p ≠ "HOST-" ++ pad4S st.host_counter ∧
    p ≠ "CLUSTER-" ++ pad4S st.cluster_counter ∧
    p ≠ "DC-" ++ pad4S st.datacenter_counter ∧
    p ≠ "VM-" ++ pad4S st.vm_counter ++ vmSfx st.filename_suffix ∧
    ∀ ft ∈ safeFts, p ≠ ft ++ "-" ++ pad4S st.name_mappings.length := by
  rcases hs with ⟨k, hk, he⟩ | ⟨k, hk, he⟩ | ⟨k, hk, he⟩ | ⟨k, hk, he⟩ |
    ⟨ft, k, hft, hk, he⟩ <;> subst he
  · refine ⟨?_, ?_, ?_, ?_, ?_⟩
    · intro he2
      rw [host_shape_eq, host_shape_eq] at he2
      obtain ⟨_, hr⟩ := dashfree_split_inj host_dashfree host_dashfree he2
      exact absurd (pad4_inj hr) (by omega)
    · intro he2
      rw [host_shape_eq, cluster_shape_eq] at he2
      obtain ⟨ht, _⟩ :=
        dashfree_split_inj host_dashfree cluster_dashfree he2
      exact absurd ht (by decide)
    · intro he2
      rw [host_shape_eq, dc_shape_eq] at he2
      obtain ⟨ht, _⟩ := dashfree_split_inj host_dashfree dc_dashfree he2
      exact absurd ht (by decide)
    · intro he2
      rw [host_shape_eq, vm_shape_eq] at he2
      obtain ⟨ht, _⟩ := dashfree_split_inj host_dashfree vm_dashfree he2
      exact absurd ht (by decide)
    · intro ft2 hft2 he2
      rw [host_shape_eq, generic_shape_eq] at he2
      obtain ⟨ht, _⟩ := dashfree_split_inj host_dashfree
        (safeFts_dashfree ft2 hft2) he2
      exact absurd ht.symm (safeFts_tags ft2 hft2).1
  · refine ⟨?_, ?_, ?_, ?_, ?_⟩
    · intro he2
      rw [cluster_shape_eq, host_shape_eq] at he2
      obtain ⟨ht, _⟩ :=
        dashfree_split_inj cluster_dashfree host_dashfree he2
      exact absurd ht (by decide)
    · intro he2
      rw [cluster_shape_eq, cluster_shape_eq] at he2
      obtain ⟨_, hr⟩ :=
        dashfree_split_inj cluster_dashfree cluster_dashfree he2
      exact absurd (pad4_inj hr) (by omega)
    · intro he2
      rw [cluster_shape_eq, dc_shape_eq] at he2
      obtain ⟨ht, _⟩ := dashfree_split_inj cluster_dashfree dc_dashfree he2
      exact absurd ht (by decide)
    · intro he2
      rw [cluster_shape_eq, vm_shape_eq] at he2
      obtain ⟨ht, _⟩ := dashfree_split_inj cluster_dashfree vm_dashfree he2
      exact absurd ht (by decide)
    · intro ft2 hft2 he2
      rw [cluster_shape_eq, generic_shape_eq] at he2
      obtain ⟨ht, _⟩ := dashfree_split_inj cluster_dashfree
        (safeFts_dashfree ft2 hft2) he2
      exact absurd ht.symm (safeFts_tags ft2 hft2).2.1
  · refine ⟨?_, ?_, ?_, ?_, ?_⟩
    · intro he2
      rw [dc_shape_eq, host_shape_eq] at he2
      obtain ⟨ht, _⟩ := dashfree_split_inj dc_dashfree host_dashfree he2
      exact absurd ht (by decide)
    · intro he2
      rw [dc_shape_eq, cluster_shape_eq] at he2
      obtain ⟨ht, _⟩ := dashfree_split_inj dc_dashfree cluster_dashfree he2
      exact absurd ht (by decide)
    · intro he2
      rw [dc_shape_eq, dc_shape_eq] at he2
      obtain ⟨_, hr⟩ := dashfree_split_inj dc_dashfree dc_dashfree he2
      exact absurd (pad4_inj hr) (by omega)
    · intro he2
      rw [dc_shape_eq, vm_shape_eq] at he2
      obtain ⟨ht, _⟩ := dashfree_split_inj dc_dashfree vm_dashfree he2
      exact absurd ht (by decide)
    · intro ft2 hft2 he2
      rw [dc_shape_eq, generic_shape_eq] at he2
      obtain ⟨ht, _⟩ := dashfree_split_inj dc_dashfree
        (safeFts_dashfree ft2 hft2) he2
      exact absurd ht.symm (safeFts_tags ft2 hft2).2.2.1
  · refine ⟨?_, ?_, ?_, ?_, ?_⟩
    · intro he2
      rw [vm_shape_eq, host_shape_eq] at he2
      obtain ⟨ht, _⟩ := dashfree_split_inj vm_dashfree host_dashfree he2
      exact absurd ht (by decide)
    · intro he2
      rw [vm_shape_eq, cluster_shape_eq] at he2
      obtain ⟨ht, _⟩ := dashfree_split_inj vm_dashfree cluster_dashfree he2
      exact absurd ht (by decide)
    · intro he2
      rw [vm_shape_eq, dc_shape_eq] at he2
      obtain ⟨ht, _⟩ := dashfree_split_inj vm_dashfree dc_dashfree he2
      exact absurd ht (by decide)
    · intro he2
      rw [vm_shape_eq, vm_shape_eq] at he2
      obtain ⟨_, hr⟩ := dashfree_split_inj vm_dashfree vm_dashfree he2
      have hp := List.append_cancel_right hr
      exact absurd (pad4_inj hp) (by omega)
    · intro ft2 hft2 he2
      rw [vm_shape_eq, generic_shape_eq] at he2
      obtain ⟨ht, _⟩ := dashfree_split_inj vm_dashfree
        (safeFts_dashfree ft2 hft2) he2
      exact absurd ht.symm (safeFts_tags ft2 hft2).2.2.2
  · refine ⟨?_, ?_, ?_, ?_, ?_⟩
    · intro he2
      rw [generic_shape_eq, host_shape_eq] at he2
      obtain ⟨ht, _⟩ := dashfree_split_inj (safeFts_dashfree ft hft)
        host_dashfree he2
      exact absurd ht (safeFts_tags ft hft).1
    · intro he2
      rw [generic_shape_eq, cluster_shape_eq] at he2
      obtain ⟨ht, _⟩ := dashfree_split_inj (safeFts_dashfree ft hft)
        cluster_dashfree he2
      exact absurd ht (safeFts_tags ft hft).2.1
    · intro he2
      rw [generic_shape_eq, dc_shape_eq] at he2
      obtain ⟨ht, _⟩ := dashfree_split_inj (safeFts_dashfree ft hft)
        dc_dashfree he2
      exact absurd ht (safeFts_tags ft hft).2.2.1
    · intro he2
      rw [generic_shape_eq, vm_shape_eq] at he2
      obtain ⟨ht, _⟩ := dashfree_split_inj (safeFts_dashfree ft hft)
        vm_dashfree he2
      exact absurd ht (safeFts_tags ft hft).2.2.2
    · intro ft2 hft2 he2
      rw [generic_shape_eq, generic_shape_eq] at he2
      obtain ⟨_, hr⟩ := dashfree_split_inj (safeFts_dashfree ft hft)
        (safeFts_dashfree ft2 hft2) he2
      exact absurd (pad4_inj hr) (by omega)

theorem ValShape_mono {st st' : AnonymizationManager} {p : String}
    (hh : st.host_counter ≤ st'.host_counter)
    (hc : st.cluster_counter ≤ st'.cluster_counter)
    (hd : st.datacenter_counter ≤ st'.datacenter_counter)
    (hv : st.vm_counter ≤ st'.vm_counter)
    (hl : st.name_mappings.length ≤ st'.name_mappings.length)
    (hs : st'.filename_suffix = st.filename_suffix)
    (h : ValShape st p) : ValShape st' p := by
  rcases h with ⟨k, hk, he⟩ | ⟨k, hk, he⟩ | ⟨k, hk, he⟩ | ⟨k, hk, he⟩ |
    ⟨ft, k, hft, hk, he⟩
  · exact Or.inl ⟨k, by omega, he⟩
  · exact Or.inr (Or.inl ⟨k, by omega, he⟩)
  · exact Or.inr (Or.inr (Or.inl ⟨k, by omega, he⟩))
  · refine Or.inr (Or.inr (Or.inr (Or.inl ⟨k, by omega, ?_⟩)))
    rw [hs]
    exact he
  · exact Or.inr (Or.inr (Or.inr (Or.inr ⟨ft, k, hft, by omega, he⟩)))

theorem NameInv_of_fields {st st' : AnonymizationManager}
    (h : st'.name_mappings = st.name_mappings ∧
      st'.host_counter = st.host_counter ∧
      st'.cluster_counter = st.cluster_counter ∧
      st'.datacenter_counter = st.datacenter_counter ∧
      st'.vm_counter = st.vm_counter ∧
      st'.filename_suffix = st.filename_suffix)
    (hinv : NameInv st) : NameInv st' := by
  obtain ⟨h1, h2, h3, h4, h5, h6⟩ := h
  constructor
  · intro pr hpr
    rw [h1] at hpr
    exact ValShape_mono (by omega) (by omega) (by omega) (by omega)
      (by rw [h1]) h6 (hinv.1 pr hpr)
  · rw [h1]
    exact hinv.2

theorem snd_nodup_inj {l : List (String × String)}
    (h : (l.map Prod.snd).Nodup) {v1 v2 p : String}
    (h1 : (v1, p) ∈ l) (h2 : (v2, p) ∈ l) : v1 = v2 := by
  induction l with
  | nil => cases h1
  | cons pr rest ih =>
    rw [List.map_cons, List.nodup_cons] at h
    rcases List.mem_cons.mp h1 with he1 | h1'
    · rcases List.mem_cons.mp h2 with he2 | h2'
      · rw [← he2] at he1
        simpa using congrArg Prod.fst he1
      · exfalso
        apply h.1
        rw [← he1]
        exact List.mem_map.mpr ⟨(v2, p), h2', rfl⟩
    · rcases List.mem_cons.mp h2 with he2 | h2'
      · exfalso
        apply h.1
        rw [← he2]
        exact List.mem_map.mpr ⟨(v1, p), h1', rfl⟩
      · exact ih h.2 h1' h2'
theorem NameInv_init (sfx : String) :
    NameInv (AnonymizationManager.init sfx) := by
  constructor
  · intro pr hpr
    cases hpr
  · exact List.nodup_nil

open AnonymizationManager in
theorem NameInv_host (st : AnonymizationManager) (v : String) (count : Bool)
    (hinv : NameInv st) : NameInv (st.anonymize_host_name v count).2 := by
  by_cases hv : v = ""
  · rw [show (st.anonymize_host_name v count).2 = st from by
      simp [anonymize_host_name, hv]]
    exact hinv
  · cases hl : lookup st.name_mappings v with
    | some p =>
      rw [show (st.anonymize_host_name v count).2 = st from by
        simp [anonymize_host_name, hv, hl]]
      exact hinv
    | none =>
      have heqs :
          (st.anonymize_host_name v count).2.name_mappings =
            store st.name_mappings v ("HOST-" ++ pad4S st.host_counter) ∧
          (st.anonymize_host_name v count).2.host_counter =
            st.host_counter + 1 ∧
          (st.anonymize_host_name v count).2.cluster_counter =
            st.cluster_counter ∧
          (st.anonymize_host_name v count).2.datacenter_counter =
            st.datacenter_counter ∧
          (st.anonymize_host_name v count).2.vm_counter = st.vm_counter ∧
          (st.anonymize_host_name v count).2.filename_suffix =
            st.filename_suffix := by
        by_cases hcv : count <;> simp [anonymize_host_name, hv, hl, hcv]
      obtain ⟨h1, h2, h3, h4, h5, h6⟩ := heqs
      have hlen : (st.anonymize_host_name v count).2.name_mappings.length =
          st.name_mappings.length + 1 := by
        rw [h1]
        simp [store]
      constructor
      · intro pr hpr
        rw [h1, store] at hpr
        rcases List.mem_cons.mp hpr with rfl | hold
        · exact Or.inl ⟨st.host_counter, by omega, rfl⟩
        · exact ValShape_mono (by omega) (by omega) (by omega) (by omega)
            (by omega) h6 (hinv.1 pr hold)
      · rw [h1, store, List.map_cons, List.nodup_cons]
        refine ⟨?_, hinv.2⟩
        intro hmem
        obtain ⟨pr, hpr, hpr2⟩ := List.mem_map.mp hmem
        exact (ValShape_ne_fresh (hinv.1 pr hpr)).1 hpr2

open AnonymizationManager in
theorem NameInv_cluster (st : AnonymizationManager) (v : String)
    (hinv : NameInv st) : NameInv (st.anonymize_cluster_name v).2 := by
  by_cases hv : v = ""
  · rw [show (st.anonymize_cluster_name v).2 = st from by
      simp [anonymize_cluster_name, hv]]
    exact hinv
  · cases hl : lookup st.name_mappings v with
    | some p =>
      rw [show (st.anonymize_cluster_name v).2 = st from by
        simp [anonymize_cluster_name, hv, hl]]
      exact hinv
    | none =>
      have heqs :
          (st.anonymize_cluster_name v).2.name_mappings =
            store st.name_mappings v
              ("CLUSTER-" ++ pad4S st.cluster_counter) ∧
          (st.anonymize_cluster_name v).2.host_counter = st.host_counter ∧
          (st.anonymize_cluster_name v).2.cluster_counter =
            st.cluster_counter + 1 ∧
          (st.anonymize_cluster_name v).2.datacenter_counter =
            st.datacenter_counter ∧
          (st.anonymize_cluster_name v).2.vm_counter = st.vm_counter ∧
          (st.anonymize_cluster_name v).2.filename_suffix =
            st.filename_suffix := by
        simp [anonymize_cluster_name, hv, hl]
      obtain ⟨h1, h2, h3, h4, h5, h6⟩ := heqs
      have hlen : (st.anonymize_cluster_name v).2.name_mappings.length =
          st.name_mappings.length + 1 := by
        rw [h1]
        simp [store]
      constructor
      · intro pr hpr
        rw [h1, store] at hpr
        rcases List.mem_cons.mp hpr with rfl | hold
        · exact Or.inr (Or.inl ⟨st.cluster_counter, by omega, rfl⟩)
        · exact ValShape_mono (by omega) (by omega) (by omega) (by omega)
            (by omega) h6 (hinv.1 pr hold)
      · rw [h1, store, List.map_cons, List.nodup_cons]
        refine ⟨?_, hinv.2⟩
        intro hmem
        obtain ⟨pr, hpr, hpr2⟩ := List.mem_map.mp hmem
        exact (ValShape_ne_fresh (hinv.1 pr hpr)).2.1 hpr2

open AnonymizationManager in
theorem NameInv_dc (st : AnonymizationManager) (v : String)
    (hinv : NameInv st) : NameInv (st.anonymize_datacenter_name v).2 := by
  by_cases hv : v = ""
  · rw [show (st.anonymize_datacenter_name v).2 = st from by
      simp [anonymize_datacenter_name, hv]]
    exact hinv
  · cases hl : lookup st.name_mappings v with
    | some p =>
      rw [show (st.anonymize_datacenter_name v).2 = st from by
        simp [anonymize_datacenter_name, hv, hl]]
      exact hinv
    | none =>
      have heqs :
          (st.anonymize_datacenter_name v).2.name_mappings =
            store st.name_mappings v
              ("DC-" ++ pad4S st.datacenter_counter) ∧
          (st.anonymize_datacenter_name v).2.host_counter =
            st.host_counter ∧
          (st.anonymize_datacenter_name v).2.cluster_counter =
            st.cluster_counter ∧
          (st.anonymize_datacenter_name v).2.datacenter_counter =
            st.datacenter_counter + 1 ∧
          (st.anonymize_datacenter_name v).2.vm_counter = st.vm_counter ∧
          (st.anonymize_datacenter_name v).2.filename_suffix =
            st.filename_suffix := by
        simp [anonymize_datacenter_name, hv, hl]
      obtain ⟨h1, h2, h3, h4, h5, h6⟩ := heqs
      have hlen : (st.anonymize_datacenter_name v).2.name_mappings.length =
          st.name_mappings.length + 1 := by
        rw [h1]
        simp [store]
      constructor
      · intro pr hpr
        rw [h1, store] at hpr
        rcases List.mem_cons.mp hpr with rfl | hold
        · exact Or.inr (Or.inr (Or.inl
            ⟨st.datacenter_counter, by omega, rfl⟩))
        · exact ValShape_mono (by omega) (by omega) (by omega) (by omega)
            (by omega) h6 (hinv.1 pr hold)
      · rw [h1, store, List.map_cons, List.nodup_cons]
        refine ⟨?_, hinv.2⟩
        intro hmem
        obtain ⟨pr, hpr, hpr2⟩ := List.mem_map.mp hmem
        exact (ValShape_ne_fresh (hinv.1 pr hpr)).2.2.1 hpr2

open AnonymizationManager in
theorem NameInv_vm (st : AnonymizationManager) (v : String) (count : Bool)
    (hinv : NameInv st) :
    NameInv (st.anonymize_vm_name_with_id v none count).2 := by
  by_cases hv : v = ""
  · rw [show (st.anonymize_vm_name_with_id v none count).2 = st from by
      simp [anonymize_vm_name_with_id, hv]]
    exact hinv
  · cases hl : lookup st.name_mappings v with
    | some p =>
      rw [show (st.anonymize_vm_name_with_id v none count).2 = st from by
        simp [anonymize_vm_name_with_id, hv, hl]]
      exact hinv
    | none =>
      have heqs :
          (st.anonymize_vm_name_with_id v none count).2.name_mappings =
            store st.name_mappings v ("VM-" ++ pad4S st.vm_counter ++
              vmSfx st.filename_suffix) ∧
          (st.anonymize_vm_name_with_id v none count).2.host_counter =
            st.host_counter ∧
          (st.anonymize_vm_name_with_id v none count).2.cluster_counter =
            st.cluster_counter ∧
          (st.anonymize_vm_name_with_id v none
            count).2.datacenter_counter = st.datacenter_counter ∧
          (st.anonymize_vm_name_with_id v none count).2.vm_counter =
            st.vm_counter + 1 ∧
          (st.anonymize_vm_name_with_id v none count).2.filename_suffix =
            st.filename_suffix := by
        by_cases hcv : count <;>
          simp [anonymize_vm_name_with_id, hv, hl, hcv, vmSfx]
      obtain ⟨h1, h2, h3, h4, h5, h6⟩ := heqs
      have hlen :
          (st.anonymize_vm_name_with_id v none
            count).2.name_mappings.length =
            st.name_mappings.length + 1 := by
        rw [h1]
        simp [store]
      constructor
      · intro pr hpr
        rw [h1, store] at hpr
        rcases List.mem_cons.mp hpr with rfl | hold
        · refine Or.inr (Or.inr (Or.inr (Or.inl
            ⟨st.vm_counter, by omega, ?_⟩)))
          rw [h6]
        · exact ValShape_mono (by omega) (by omega) (by omega) (by omega)
            (by omega) h6 (hinv.1 pr hold)
      · rw [h1, store, List.map_cons, List.nodup_cons]
        refine ⟨?_, hinv.2⟩
        intro hmem
        obtain ⟨pr, hpr, hpr2⟩ := List.mem_map.mp hmem
        exact (ValShape_ne_fresh (hinv.1 pr hpr)).2.2.2.1 hpr2

open AnonymizationManager in
theorem NameInv_generic (st : AnonymizationManager) (v ft : String)
    (hft : ft ∈ safeFts) (hinv : NameInv st) :
    NameInv (st.anonymize_generic_field v ft).2 := by
  by_cases hv : v = ""
  · rw [show (st.anonymize_generic_field v ft).2 = st from by
      simp [anonymize_generic_field, hv]]
    exact hinv
  · cases hl : lookup st.name_mappings v with
    | some p =>
      rw [show (st.anonymize_generic_field v ft).2 = st from by
        simp [anonymize_generic_field, hv, hl]]
      exact hinv
    | none =>
      have heqs :
          (st.anonymize_generic_field v ft).2.name_mappings =
            store st.name_mappings v
              (ft ++ "-" ++ pad4S st.name_mappings.length) ∧
          (st.anonymize_generic_field v ft).2.host_counter =
            st.host_counter ∧
          (st.anonymize_generic_field v ft).2.cluster_counter =
            st.cluster_counter ∧
          (st.anonymize_generic_field v ft).2.datacenter_counter =
            st.datacenter_counter ∧
          (st.anonymize_generic_field v ft).2.vm_counter = st.vm_counter ∧
          (st.anonymize_generic_field v ft).2.filename_suffix =
            st.filename_suffix := by
        simp [anonymize_generic_field, hv, hl]
      obtain ⟨h1, h2, h3, h4, h5, h6⟩ := heqs
      have hlen : (st.anonymize_generic_field v ft).2.name_mappings.length =
          st.name_mappings.length + 1 := by
        rw [h1]
        simp [store]
      constructor
      · intro pr hpr
        rw [h1, store] at hpr
        rcases List.mem_cons.mp hpr with rfl | hold
        · exact Or.inr (Or.inr (Or.inr (Or.inr
            ⟨ft, st.name_mappings.length, hft, by omega, rfl⟩)))
        · exact ValShape_mono (by omega) (by omega) (by omega) (by omega)
            (by omega) h6 (hinv.1 pr hold)
      · rw [h1, store, List.map_cons, List.nodup_cons]
        refine ⟨?_, hinv.2⟩
        intro hmem
        obtain ⟨pr, hpr, hpr2⟩ := List.mem_map.mp hmem
        exact (ValShape_ne_fresh (hinv.1 pr hpr)).2.2.2.2 ft hft hpr2
open AnonymizationManager in
theorem single_ip_name_fields (st : AnonymizationManager) (v : String) :
    (st.anonymize_single_ip v).2.name_mappings = st.name_mappings ∧
    (st.anonymize_single_ip v).2.host_counter = st.host_counter ∧
    (st.anonymize_single_ip v).2.cluster_counter = st.cluster_counter ∧
    (st.anonymize_single_ip v).2.datacenter_counter =
      st.datacenter_counter ∧
    (st.anonymize_single_ip v).2.vm_counter = st.vm_counter ∧
    (st.anonymize_single_ip v).2.filename_suffix = st.filename_suffix := by
  by_cases hv : v = ""
  · subst hv
    exact ⟨rfl, rfl, rfl, rfl, rfl, rfl⟩
  · cases hl : lookup st.ip_mappings v with
    | some r => simp [anonymize_single_ip, hv, hl]
    | none =>
      cases hp : parseIPv4 v with
      | some q =>
        obtain ⟨a, b, c, d⟩ := q
        simp [anonymize_single_ip, hv, hl, hp]
      | none =>
        by_cases h6 : isValidIPv6 v = true
        · simp [anonymize_single_ip, hv, hl, hp, h6]
        · by_cases hsh : shapedIPv4 v = true
          · simp [anonymize_single_ip, hv, hl, hp, h6, hsh]
          · simp [anonymize_single_ip, hv, hl, hp, h6, hsh]

open AnonymizationManager in
theorem ipList_name_fields : ∀ (l : List String)
    (st : AnonymizationManager),
    (anonymizeIPList st l).2.name_mappings = st.name_mappings ∧
    (anonymizeIPList st l).2.host_counter = st.host_counter ∧
    (anonymizeIPList st l).2.cluster_counter = st.cluster_counter ∧
    (anonymizeIPList st l).2.datacenter_counter = st.datacenter_counter ∧
    (anonymizeIPList st l).2.vm_counter = st.vm_counter ∧
    (anonymizeIPList st l).2.filename_suffix = st.filename_suffix := by
  intro l
  induction l with
  | nil => intro st; exact ⟨rfl, rfl, rfl, rfl, rfl, rfl⟩
  | cons ip rest ih =>
    intro st
    obtain ⟨s1, s2, s3, s4, s5, s6⟩ := single_ip_name_fields st ip
    obtain ⟨t1, t2, t3, t4, t5, t6⟩ := ih (st.anonymize_single_ip ip).2
    refine ⟨?_, ?_, ?_, ?_, ?_, ?_⟩ <;> simp only [anonymizeIPList]
    · rw [t1, s1]
    · rw [t2, s2]
    · rw [t3, s3]
    · rw [t4, s4]
    · rw [t5, s5]
    · rw [t6, s6]
open AnonymizationManager in
theorem ip_address_name_fields (st : AnonymizationManager) (v : String) :
    (st.anonymize_ip_address v).2.name_mappings = st.name_mappings ∧
    (st.anonymize_ip_address v).2.host_counter = st.host_counter ∧
    (st.anonymize_ip_address v).2.cluster_counter = st.cluster_counter ∧
    (st.anonymize_ip_address v).2.datacenter_counter =
      st.datacenter_counter ∧
    (st.anonymize_ip_address v).2.vm_counter = st.vm_counter ∧
    (st.anonymize_ip_address v).2.filename_suffix = st.filename_suffix := by
  by_cases h0 : pyStripS v = ""
  · rw [show (st.anonymize_ip_address v).2 = st from by
      simp [anonymize_ip_address, h0]]
    exact ⟨rfl, rfl, rfl, rfl, rfl, rfl⟩
  · by_cases h1 : hasChar (pyStripS v) ',' = true ∨
        hasChar (pyStripS v) ';' = true
    · rw [show (st.anonymize_ip_address v).2 =
          (anonymizeIPList st
            ((splitChars (if hasChar (pyStripS v) ',' then ',' else ';')
              (chars (pyStripS v))).map fun p => strOf (pyStrip p))).2 from by
        simp [anonymize_ip_address, h0, h1]]
      exact ipList_name_fields _ st
    · rw [show (st.anonymize_ip_address v).2 =
          (st.anonymize_single_ip (pyStripS v)).2 from by
        simp [anonymize_ip_address, h0, h1]]
      exact single_ip_name_fields st (pyStripS v)

open AnonymizationManager in
theorem NameInv_runCalls : ∀ (calls : List (AnonCall × String))
    (st : AnonymizationManager), NameInv st →
    (∀ cl ∈ calls, allowedCall cl) → NameInv (runCalls st calls) := by
  intro calls
  induction calls with
  | nil =>
    intro st h _
    exact h
  | cons cl rest ih =>
    intro st hinv hall
    have hcl := hall cl (List.mem_cons_self _ _)
    have hrest : ∀ c ∈ rest, allowedCall c := fun c hc =>
      hall c (List.mem_cons_of_mem _ hc)
    rw [runCalls]
    refine ih _ ?_ hrest
    obtain ⟨op, v⟩ := cl
    cases op with
    | vmName vmId count =>
      have hid : vmId = none := hcl
      subst hid
      exact NameInv_vm st v count hinv
    | hostName count => exact NameInv_host st v count hinv
    | clusterName => exact NameInv_cluster st v hinv
    | datacenterName => exact NameInv_dc st v hinv
    | genericField ft => exact NameInv_generic st v ft hcl hinv
    | ipAddr => exact NameInv_of_fields (ip_address_name_fields st v) hinv
    | macAddr => exact NameInv_of_fields ⟨rfl, rfl, rfl, rfl, rfl, rfl⟩ hinv
    | uuid => exact NameInv_of_fields ⟨rfl, rfl, rfl, rfl, rfl, rfl⟩ hinv
/-- C2 (amended): over a run of anonymization calls in which VM names
carry no usable VM ID and generic fields use one of the run's disjoint
type tags, the pseudonyms recorded in the shared name dictionary are
pairwise distinct, so each of them maps back to exactly one original
value; the unrestricted claim fails, because the generic `HOST` tag used
by the DNS branch numbers its pseudonyms by the size of the shared
dictionary and collides with the host category. -/
theorem no_cross_category_collision (sfx : String)
    (calls : List (AnonCall × String))
    (hall : ∀ cl ∈ calls, allowedCall cl) :
    ((runCalls (AnonymizationManager.init sfx) calls).name_mappings.map
      Prod.snd).Nodup ∧
    ∀ p v1 v2,
      (v1, p) ∈ (runCalls (AnonymizationManager.init sfx)
        calls).name_mappings →
      (v2, p) ∈ (runCalls (AnonymizationManager.init sfx)
        calls).name_mappings → v1 = v2 := by
  have h := NameInv_runCalls calls (AnonymizationManager.init sfx)
    (NameInv_init sfx) hall
  exact ⟨h.2, fun p v1 v2 h1 h2 => snd_nodup_inj h.2 h1 h2⟩

/-- C2 counterexample to the unrestricted claim: the host name `esx1` and
the generic `HOST`-tagged value `web` are distinct originals anonymized
under different categories in the same run, yet both receive the
pseudonym `HOST-0001`. -/
theorem cross_category_collision :
    ((AnonymizationManager.init "").anonymize_host_name "esx1" true).1 =
      ((((AnonymizationManager.init "").anonymize_host_name "esx1"
        true).2).anonymize_generic_field "web" "HOST").1 ∧
    ("esx1" : String) ≠ "web" := by decide

theorem no_cross_category_collision_witness :
    ((runCalls (AnonymizationManager.init "")
      [(AnonCall.hostName true, "esx1"),
       (AnonCall.genericField "DS", "web")]).name_mappings.map
      Prod.snd).Nodup :=
  (no_cross_category_collision "" [(AnonCall.hostName true, "esx1"),
    (AnonCall.genericField "DS", "web")] (by
      intro cl hcl
      rcases List.mem_cons.mp hcl with rfl | hcl2
      · exact trivial
      · rcases List.mem_cons.mp hcl2 with rfl | hcl3
        · exact (by decide : "DS" ∈ safeFts)
        · cases hcl3)).1

end RVTools